import Mathlib

/-!
Verification development for the `capacity-limiter` task scheduler.

The TypeScript sources are shallowly embedded: capacities are rationals,
timestamps and millisecond durations are naturals, the scheduler object is a
`LimiterState` record, and every method of `CapacityLimiter`,
`ReleaseRuleManager`, `FailRecoveryManager` and `DoubleLinkedList` that the
claims touch is translated into an executable Lean function of the same name.
JavaScript truthiness tests (`if (x)` on numbers / optionals) are translated
point-for-point: `0` and `undefined` are both falsy, which the helper
predicates below make explicit.
-/

namespace CapLim

/-- Error type tags of `CapacityLimiterError` (capacity-limiter-error.ts). -/
inductive ErrorType where
  | invalidArgument
  | invalidCall
  | maxCapacityExceeded
  | queueSizeExceeded
  | queueTimeout
  | executionTimeout
  | onFailureError
  | limiterStopped
deriving DecidableEq, Repr

/-- A task's rejection value: either an engine error or a caller error. -/
inductive TaskError where
  | engine (e : ErrorType)
  | user (code : ℕ)
deriving DecidableEq, Repr

/-- State of a task's single-shot result channel (its Promise). -/
inductive ChannelOutcome where
  | success
  | failure (e : TaskError)
deriving DecidableEq, Repr

/-- The `capacityStrategy` option values. -/
inductive CapacityStrategy where
  | reserve
  | claim
deriving DecidableEq, Repr

/-- The `taskExceedsMaxCapacityStrategy` option values. -/
inductive ExceedsStrategy where
  | throwError
  | waitForFullCapacity
deriving DecidableEq, Repr

/-- The `queueSizeExceededStrategy` option values
(`throw-error` / `replace` / `replace-by-priority`). -/
inductive QueueFullStrategy where
  | throwError
  | replaceOldest
  | replaceByPriority
deriving DecidableEq, Repr

/-- A release rule (release-rule-manager.ts): `reset` carries an optional
value (default 0), `reduce` a mandatory value; both carry an interval in ms. -/
inductive ReleaseRule where
  | reset (value : Option ℚ) (interval : ℕ)
  | reduce (value : ℚ) (interval : ℕ)
deriving DecidableEq, Repr

/-- The interval of a release rule. -/
def ReleaseRule.interval : ReleaseRule → ℕ
  | .reset _ i => i
  | .reduce _ i => i

/-- Per-rule runtime status kept by `ReleaseRuleManager` (`lastApplied`
timestamp plus presence of a timer handle). -/
structure RuleStatus where
  lastApplied : ℕ
  hasTimer : Bool := false
deriving DecidableEq, Repr

/-- Effect of `applyRule` as installed by the `CapacityLimiter` constructor:
`reset` sets `usedCapacity` to the rule value (default 0), `reduce` sets it to
`max(0, usedCapacity - value * times)`.  `times` is an integer because the
catch-up routine can produce a negative count. -/
def applyRuleToUsed (r : ReleaseRule) (times : ℤ) (used : ℚ) : ℚ :=
  match r with
  | .reset v _ => v.getD 0
  | .reduce v _ => max 0 (used - v * (times : ℚ))

/-- JavaScript truthiness of the running `lastResetTime` variable in
`applyMissedRules`: `!lastResetTime` is true when it is `undefined` or `0`. -/
def resetTimeFalsy : Option ℕ → Bool
  | none => true
  | some v => v = 0

/-- First loop of `ReleaseRuleManager.applyMissedRules`: for every due `reset`
rule advance `lastApplied` to its catch-up time `now - ((now-lastApplied) %
interval)` and track the rule with the latest catch-up time.  The ℕ guard
`lastApplied + interval ≤ now` is the JS test `now - lastApplied >= interval`;
for `interval = 0` the JS arithmetic degenerates to NaN, so theorems assume
positive intervals. -/
def missedResetPass (now : ℕ) :
    List (ReleaseRule × RuleStatus) → Option ℕ → Option ReleaseRule →
    List (ReleaseRule × RuleStatus) × Option ℕ × Option ReleaseRule
  | [], lrt, lrr => ([], lrt, lrr)
  | (r, st) :: rest, lrt, lrr =>
    match r with
    | .reset v i =>
      if st.lastApplied + i ≤ now then
        let resetTime := now - (now - st.lastApplied) % i
        let takes := resetTimeFalsy lrt || decide (lrt.getD 0 < resetTime)
        let lrt' := if takes then some resetTime else lrt
        let lrr' := if takes then some (.reset v i) else lrr
        let (rest', lrtF, lrrF) := missedResetPass now rest lrt' lrr'
        ((ReleaseRule.reset v i, { st with lastApplied := resetTime }) :: rest', lrtF, lrrF)
      else
        let (rest', lrtF, lrrF) := missedResetPass now rest lrt lrr
        ((ReleaseRule.reset v i, st) :: rest', lrtF, lrrF)
    | .reduce v i =>
      let (rest', lrtF, lrrF) := missedResetPass now rest lrt lrr
      ((ReleaseRule.reduce v i, st) :: rest', lrtF, lrrF)

/-- Second loop of `ReleaseRuleManager.applyMissedRules`: each due `reduce`
rule fires `floor((lastReduceTime - (lastResetTime ?? lastApplied)) /
interval)` times (a signed count) when `usedCapacity > 0` at its turn, and its
`lastApplied` advances to its catch-up time. -/
def missedReducePass (now : ℕ) (lrt : Option ℕ) :
    List (ReleaseRule × RuleStatus) → ℚ →
    List (ReleaseRule × RuleStatus) × ℚ
  | [], used => ([], used)
  | (r, st) :: rest, used =>
    match r with
    | .reduce v i =>
      if st.lastApplied + i ≤ now then
        let lastReduceTime := now - (now - st.lastApplied) % i
        let used' :=
          if 0 < used then
            let times : ℤ := Int.fdiv ((lastReduceTime : ℤ) - ((lrt.getD st.lastApplied : ℕ) : ℤ)) (i : ℤ)
            applyRuleToUsed (.reduce v i) times used
          else used
        let (rest', usedF) := missedReducePass now lrt rest used'
        ((ReleaseRule.reduce v i, { st with lastApplied := lastReduceTime }) :: rest', usedF)
      else
        let (rest', usedF) := missedReducePass now lrt rest used
        ((ReleaseRule.reduce v i, st) :: rest', usedF)
    | .reset v i =>
      let (rest', usedF) := missedReducePass now lrt rest used
      ((ReleaseRule.reset v i, st) :: rest', usedF)

/-- `ReleaseRuleManager.applyMissedRules`, composed with the limiter's
`applyRule` / `canReduceCapacity` callbacks: run the reset pass, apply the
winning reset rule once, then run the reduce pass. -/
def applyMissedRules (now : ℕ) (entries : List (ReleaseRule × RuleStatus)) (used : ℚ) :
    List (ReleaseRule × RuleStatus) × ℚ :=
  let (entries1, lrt, lrr) := missedResetPass now entries none none
  let used1 := match lrr with
    | some r => applyRuleToUsed r 1 used
    | none => used
  missedReducePass now lrt entries1 used1

/-! Specification-side vocabulary for the catch-up routine, used to state what
`applyMissedRules` computes. -/

/-- The catch-up time `now - ((now - lastApplied) mod interval)` of a rule
that is due at `now`, and `none` when the rule is not due. -/
def catchUpTime (now la i : ℕ) : Option ℕ :=
  if la + i ≤ now then some (now - (now - la) % i) else none

/-- Catch-up times of all due `reset` rules, paired with their rules, in
configuration order. -/
def dueResetCatchUps (now : ℕ) (entries : List (ReleaseRule × RuleStatus)) :
    List (ℕ × ReleaseRule) :=
  entries.filterMap fun e =>
    match e with
    | (.reset v i, st) => (catchUpTime now st.lastApplied i).map fun c => (c, ReleaseRule.reset v i)
    | (.reduce _ _, _) => none

/-- Advance a rule's status to its own catch-up time when the rule is due. -/
def advanceDue (now : ℕ) (e : ReleaseRule × RuleStatus) : ReleaseRule × RuleStatus :=
  match catchUpTime now e.2.lastApplied e.1.interval with
  | some c => (e.1, { e.2 with lastApplied := c })
  | none => e

/-- Status update performed by the reset pass: advance due `reset` rules
only. -/
def resetPassAdvance (now : ℕ) (e : ReleaseRule × RuleStatus) : ReleaseRule × RuleStatus :=
  match e with
  | (.reset v i, st) =>
    match catchUpTime now st.lastApplied i with
    | some c => (ReleaseRule.reset v i, { st with lastApplied := c })
    | none => (ReleaseRule.reset v i, st)
  | (.reduce v i, st) => (ReleaseRule.reduce v i, st)

/-- Status update performed by the reduce pass: advance due `reduce` rules
only. -/
def reducePassAdvance (now : ℕ) (e : ReleaseRule × RuleStatus) : ReleaseRule × RuleStatus :=
  match e with
  | (.reduce v i, st) =>
    match catchUpTime now st.lastApplied i with
    | some c => (ReleaseRule.reduce v i, { st with lastApplied := c })
    | none => (ReleaseRule.reduce v i, st)
  | (.reset v i, st) => (ReleaseRule.reset v i, st)

/-- Accumulator update of the reset pass: replace the running latest reset
catch-up when the previous one is falsy or strictly earlier. -/
def takeLater (acc : Option ℕ × Option ReleaseRule) (p : ℕ × ReleaseRule) :
    Option ℕ × Option ReleaseRule :=
  if resetTimeFalsy acc.1 || decide (acc.1.getD 0 < p.1) then (some p.1, some p.2) else acc

/-- The used capacity after the reduce portion of the catch-up: each due
`reduce` rule fires a signed number of times given by the floor-division of
(its catch-up time minus the latest reset catch-up when one exists, otherwise
its own `lastApplied`) by its interval, gated by `usedCapacity > 0` at its
turn. -/
def reduceCatchUpFold (now : ℕ) (lrt : Option ℕ) :
    List (ReleaseRule × RuleStatus) → ℚ → ℚ
  | [], used => used
  | (.reduce v i, st) :: rest, used =>
    match catchUpTime now st.lastApplied i with
    | some c =>
      let used' :=
        if 0 < used then
          applyRuleToUsed (.reduce v i)
            (Int.fdiv ((c : ℤ) - ((lrt.getD st.lastApplied : ℕ) : ℤ)) (i : ℤ)) used
        else used
      reduceCatchUpFold now lrt rest used'
    | none => reduceCatchUpFold now lrt rest used
  | (.reset _ _, _) :: rest, used => reduceCatchUpFold now lrt rest used

/-- Unfolding of `takeLater` into componentwise conditionals, matching the two
separate assignments in the source loop. -/
theorem takeLater_pair (lrt : Option ℕ) (lrr : Option ReleaseRule) (c : ℕ) (r : ReleaseRule) :
    takeLater (lrt, lrr) (c, r) =
      (if (resetTimeFalsy lrt || decide (lrt.getD 0 < c)) = true then some c else lrt,
       if (resetTimeFalsy lrt || decide (lrt.getD 0 < c)) = true then some r else lrr) := by
  by_cases h : (resetTimeFalsy lrt || decide (lrt.getD 0 < c)) = true <;> simp [takeLater, h]

/-- The reset pass advances every due reset rule's `lastApplied` to its own
catch-up time and folds `takeLater` over the due reset catch-up list. -/
theorem missedResetPass_eq (now : ℕ) :
    ∀ (l : List (ReleaseRule × RuleStatus)) (lrt : Option ℕ) (lrr : Option ReleaseRule),
      missedResetPass now l lrt lrr =
        (l.map (resetPassAdvance now), (dueResetCatchUps now l).foldl takeLater (lrt, lrr))
  | [], lrt, lrr => rfl
  | (r, st) :: rest, lrt, lrr => by
    cases r with
    | reset v i =>
      by_cases hdue : st.lastApplied + i ≤ now
      · simp only [missedResetPass, hdue, if_true, if_pos, missedResetPass_eq now rest,
          resetPassAdvance, dueResetCatchUps, List.filterMap_cons, catchUpTime, List.map_cons,
          Option.map_some, Option.map_some', List.foldl_cons, takeLater_pair]
      · simp only [missedResetPass, hdue, if_false, if_neg, missedResetPass_eq now rest,
          resetPassAdvance, dueResetCatchUps, List.filterMap_cons, catchUpTime, List.map_cons,
          Option.map_none, Option.map_none']
    | reduce v i =>
      simp only [missedResetPass, missedResetPass_eq now rest, resetPassAdvance,
        dueResetCatchUps, List.filterMap_cons, List.map_cons, catchUpTime]

/-- The reduce pass advances every due reduce rule's `lastApplied` to its own
catch-up time and threads the used capacity through `reduceCatchUpFold`. -/
theorem missedReducePass_eq (now : ℕ) (lrt : Option ℕ) :
    ∀ (l : List (ReleaseRule × RuleStatus)) (used : ℚ),
      missedReducePass now lrt l used =
        (l.map (reducePassAdvance now), reduceCatchUpFold now lrt l used)
  | [], used => rfl
  | (r, st) :: rest, used => by
    cases r with
    | reduce v i =>
      by_cases hdue : st.lastApplied + i ≤ now
      · simp only [missedReducePass, hdue, if_true, if_pos, missedReducePass_eq now lrt rest,
          reducePassAdvance, reduceCatchUpFold, catchUpTime, List.map_cons, applyRuleToUsed]
      · simp only [missedReducePass, hdue, if_false, if_neg, missedReducePass_eq now lrt rest,
          reducePassAdvance, reduceCatchUpFold, catchUpTime, List.map_cons]
    | reset v i =>
      simp only [missedReducePass, missedReducePass_eq now lrt rest, reducePassAdvance,
        reduceCatchUpFold, List.map_cons, catchUpTime]

/-- Catch-up times of due rules with a positive interval are at least 1. -/
theorem catchUpTime_pos {now la i c : ℕ} (hi : 0 < i)
    (hc : catchUpTime now la i = some c) : 1 ≤ c := by
  unfold catchUpTime at hc
  split at hc
  · rename_i hdue
    simp only [Option.some.injEq] at hc
    have hmod : (now - la) % i < i := Nat.mod_lt _ hi
    have hle : (now - la) % i ≤ now - la := Nat.mod_le _ _
    omega
  · exact absurd hc (by simp)

/-- Folding `takeLater` from a strictly positive running best selects a pair
whose time bounds every listed time. -/
theorem foldl_takeLater_inv :
    ∀ (l : List (ℕ × ReleaseRule)) (m : ℕ) (r₀ : ReleaseRule),
      (∀ p ∈ l, 1 ≤ p.1) → 1 ≤ m →
      ∃ c r, l.foldl takeLater (some m, some r₀) = (some c, some r) ∧ m ≤ c ∧
        ((c = m ∧ r = r₀) ∨ (c, r) ∈ l) ∧ ∀ p ∈ l, p.1 ≤ c
  | [], m, r₀, _, _ => ⟨m, r₀, rfl, le_refl m, Or.inl ⟨rfl, rfl⟩, by simp⟩
  | (c₁, r₁) :: rest, m, r₀, hpos, hm => by
    have hc₁ : 1 ≤ c₁ := hpos (c₁, r₁) (by simp)
    have hfalsy : resetTimeFalsy (some m) = false := by
      simp [resetTimeFalsy]; omega
    by_cases hlt : m < c₁
    · have hstep : takeLater (some m, some r₀) (c₁, r₁) = (some c₁, some r₁) := by
        simp [takeLater, hfalsy, hlt]
      obtain ⟨c, r, heq, hle, hmem, hbound⟩ :=
        foldl_takeLater_inv rest c₁ r₁ (fun p hp => hpos p (by simp [hp])) hc₁
      refine ⟨c, r, ?_, by omega, ?_, ?_⟩
      · rw [List.foldl_cons, hstep, heq]
      · rcases hmem with ⟨hce, hre⟩ | hmem
        · exact Or.inr (by simp [hce, hre])
        · exact Or.inr (by simp [hmem])
      · intro p hp
        rcases List.mem_cons.mp hp with hp | hp
        · subst hp; omega
        · exact hbound p hp
    · have hstep : takeLater (some m, some r₀) (c₁, r₁) = (some m, some r₀) := by
        simp [takeLater, hfalsy, hlt]
      obtain ⟨c, r, heq, hle, hmem, hbound⟩ :=
        foldl_takeLater_inv rest m r₀ (fun p hp => hpos p (by simp [hp])) hm
      refine ⟨c, r, ?_, hle, ?_, ?_⟩
      · rw [List.foldl_cons, hstep, heq]
      · rcases hmem with hmr | hmem
        · exact Or.inl hmr
        · exact Or.inr (by simp [hmem])
      · intro p hp
        rcases List.mem_cons.mp hp with hp | hp
        · subst hp; omega
        · exact hbound p hp

/-- Folding `takeLater` from the empty accumulator over a nonempty list of
positive times selects a listed pair whose time is the latest. -/
theorem foldl_takeLater_spec (l : List (ℕ × ReleaseRule))
    (hpos : ∀ p ∈ l, 1 ≤ p.1) (hne : l ≠ []) :
    ∃ c r, l.foldl takeLater (none, none) = (some c, some r) ∧ (c, r) ∈ l ∧
      ∀ p ∈ l, p.1 ≤ c := by
  match l with
  | [] => exact absurd rfl hne
  | (c₁, r₁) :: rest =>
    have hc₁ : 1 ≤ c₁ := hpos (c₁, r₁) (by simp)
    have hstep : takeLater (none, none) (c₁, r₁) = (some c₁, some r₁) := by
      simp [takeLater, resetTimeFalsy]
    obtain ⟨c, r, heq, hle, hmem, hbound⟩ :=
      foldl_takeLater_inv rest c₁ r₁ (fun p hp => hpos p (by simp [hp])) hc₁
    refine ⟨c, r, ?_, ?_, ?_⟩
    · rw [List.foldl_cons, hstep, heq]
    · rcases hmem with ⟨hce, hre⟩ | hmem
      · exact by simp [hce, hre]
      · exact by simp [hmem]
    · intro p hp
      rcases List.mem_cons.mp hp with hp | hp
      · subst hp; omega
      · exact hbound p hp

/-- The reduce portion of the catch-up ignores the statuses of reset rules,
so it is unchanged by the reset pass's status updates. -/
theorem reduceCatchUpFold_map_resetPassAdvance (now : ℕ) (lrt : Option ℕ) :
    ∀ (l : List (ReleaseRule × RuleStatus)) (used : ℚ),
      reduceCatchUpFold now lrt (l.map (resetPassAdvance now)) used =
        reduceCatchUpFold now lrt l used
  | [], _ => rfl
  | (r, st) :: rest, used => by
    cases r with
    | reset v i =>
      simp only [List.map_cons, resetPassAdvance]
      cases hc : catchUpTime now st.lastApplied i <;>
        simp only [reduceCatchUpFold, reduceCatchUpFold_map_resetPassAdvance now lrt rest]
    | reduce v i =>
      simp only [List.map_cons, resetPassAdvance, reduceCatchUpFold,
        reduceCatchUpFold_map_resetPassAdvance now lrt rest]

/-- Running the reset pass and then the reduce pass advances every due rule's
status to its own catch-up time. -/
theorem map_resetPass_reducePass (now : ℕ) (l : List (ReleaseRule × RuleStatus)) :
    (l.map (resetPassAdvance now)).map (reducePassAdvance now) = l.map (advanceDue now) := by
  rw [List.map_map]
  refine List.map_congr_left fun e _ => ?_
  obtain ⟨r, st⟩ := e
  cases r with
  | reset v i =>
    simp only [Function.comp_apply, resetPassAdvance, advanceDue, ReleaseRule.interval]
    cases hc : catchUpTime now st.lastApplied i <;> simp [reducePassAdvance]
  | reduce v i =>
    simp only [Function.comp_apply, resetPassAdvance, advanceDue, ReleaseRule.interval]
    cases hc : catchUpTime now st.lastApplied i <;> simp [reducePassAdvance, hc]

/-- Due reset catch-up times are positive when intervals are positive. -/
theorem dueResetCatchUps_pos {now : ℕ} {entries : List (ReleaseRule × RuleStatus)}
    (hwf : ∀ e ∈ entries, 0 < e.1.interval) :
    ∀ p ∈ dueResetCatchUps now entries, 1 ≤ p.1 := by
  intro p hp
  simp only [dueResetCatchUps, List.mem_filterMap] at hp
  obtain ⟨⟨r, st⟩, he, hmatch⟩ := hp
  cases r with
  | reset v i =>
    have hi : 0 < i := by simpa [ReleaseRule.interval] using hwf _ he
    have hmap : Option.map (fun c => (c, ReleaseRule.reset v i))
        (catchUpTime now st.lastApplied i) = some p := hmatch
    cases hc : catchUpTime now st.lastApplied i with
    | none => rw [hc] at hmap; simp at hmap
    | some c =>
      rw [hc] at hmap
      simp only [Option.map_some, Option.map_some', Option.some.injEq] at hmap
      rw [← hmap]
      exact catchUpTime_pos hi hc
  | reduce v i => simp at hmatch

/-- The concrete release-rule configuration of the C4 counterexample: a reset
rule (value 5, interval 100) last applied at 0 and a reduce rule (value 1,
interval 5) last applied at 105. -/
def c4Entries : List (ReleaseRule × RuleStatus) :=
  [(ReleaseRule.reset (some 5) 100, ⟨0, false⟩),
   (ReleaseRule.reduce 1 5, ⟨105, false⟩)]

/-- C4 counterexample: at `now = 120` with used capacity 3, the catch-up
routine leaves used capacity 1 (the due reduce rule fires
`floor((120 - 100)/5) = 4` times after the reset sets it to 5), whereas the
claim's formula `floor((catchUpTime - max(lastApplied, latestResetCatchUpTime))
/ interval) = floor((120 - max(105, 100))/5) = 3` firings would leave used
capacity 2. -/
theorem c4_counterexample :
    (applyMissedRules 120 c4Entries 3).2 = 1 ∧
    applyRuleToUsed (ReleaseRule.reduce 1 5) (((120 : ℤ) - max 105 100).fdiv 5)
      (applyRuleToUsed (ReleaseRule.reset (some 5) 100) 1 3) = 2 ∧
    (1 : ℚ) ≠ 2 := by
  refine ⟨?_, ?_, by norm_num⟩
  · simp only [applyMissedRules, c4Entries, missedResetPass, missedReducePass, resetTimeFalsy,
      applyRuleToUsed]
    norm_num [Int.fdiv]
  · simp only [applyRuleToUsed]
    norm_num [Int.fdiv]

/-- The capacity update applied between the two passes: the winning reset
rule, when one exists, fires once. -/
def resetWinnerApply (lrr : Option ReleaseRule) (used : ℚ) : ℚ :=
  match lrr with
  | some r => applyRuleToUsed r 1 used
  | none => used

/-- C4 (amended): on re-enabling, the catch-up routine advances every due
rule's `lastApplied` to its own catch-up time `now - ((now-lastApplied) mod
interval)`; among due reset rules it applies exactly one with the latest
catch-up time, once; and each due reduce rule fires a signed
`floor((catchUpTime - r) / interval)` times — where `r` is the latest reset
catch-up time when some reset rule is due and the rule's own `lastApplied`
otherwise — gated by `usedCapacity > 0` at that rule's turn. -/
theorem c4_amended_catchup (now : ℕ) (entries : List (ReleaseRule × RuleStatus)) (used : ℚ)
    (hwf : ∀ e ∈ entries, 0 < e.1.interval) :
    (applyMissedRules now entries used).1 = entries.map (advanceDue now) ∧
    (dueResetCatchUps now entries = [] →
      (applyMissedRules now entries used).2 = reduceCatchUpFold now none entries used) ∧
    (dueResetCatchUps now entries ≠ [] →
      ∃ c r, (c, r) ∈ dueResetCatchUps now entries ∧
        (∀ p ∈ dueResetCatchUps now entries, p.1 ≤ c) ∧
        (applyMissedRules now entries used).2 =
          reduceCatchUpFold now (some c) entries (applyRuleToUsed r 1 used)) := by
  have hpos : ∀ p ∈ dueResetCatchUps now entries, 1 ≤ p.1 := dueResetCatchUps_pos hwf
  rcases hacc : (dueResetCatchUps now entries).foldl takeLater (none, none) with ⟨lrtF, lrrF⟩
  have hmain : applyMissedRules now entries used =
      (entries.map (advanceDue now),
       reduceCatchUpFold now lrtF entries (resetWinnerApply lrrF used)) := by
    unfold applyMissedRules
    rw [missedResetPass_eq, hacc]
    cases lrrF <;>
      simp only [missedReducePass_eq, map_resetPass_reducePass,
        reduceCatchUpFold_map_resetPassAdvance, resetWinnerApply]
  refine ⟨by rw [hmain], ?_, ?_⟩
  · intro hnil
    rw [hnil] at hacc
    simp only [List.foldl_nil, Prod.mk.injEq] at hacc
    obtain ⟨h1, h2⟩ := hacc
    rw [hmain, ← h1, ← h2]
    rfl
  · intro hne
    obtain ⟨c, r, heq, hmem, hbound⟩ := foldl_takeLater_spec _ hpos hne
    rw [heq] at hacc
    injection hacc with h1 h2
    refine ⟨c, r, hmem, hbound, ?_⟩
    rw [hmain, ← h1, ← h2]
    rfl

/-- Witness for the amended C4 theorem at the concrete counterexample
configuration: the interval hypothesis holds there, and the status component
is exactly the catch-up advance of each rule. -/
theorem c4_amended_catchup_witness :
    (∀ e ∈ c4Entries, 0 < e.1.interval) ∧
    (applyMissedRules 120 c4Entries 3).1 = c4Entries.map (advanceDue 120) :=
  ⟨by decide, (c4_amended_catchup 120 c4Entries 3 (by decide)).1⟩

/-! The `DoubleLinkedList` container (double-linked-list.ts), modelled as a
Lean list in front-to-back order. -/

namespace DoubleLinkedList

variable {α : Type*}

/-- `putBefore`: scan from the head and insert `x` immediately before the
first element satisfying the condition; append at the tail when none does. -/
def putBefore (cond : α → Bool) (x : α) : List α → List α
  | [] => [x]
  | a :: rest => if cond a then x :: a :: rest else a :: putBefore cond x rest

/-- `putAfter`: scan from the tail and insert `x` immediately after the last
element satisfying the condition; insert at the head when none does. -/
def putAfter (cond : α → Bool) (x : α) (l : List α) : List α :=
  (putBefore cond x l.reverse).reverse

/-- `pickFirstMatching`: remove and return the first element satisfying the
condition. -/
def pickFirstMatching (cond : α → Bool) : List α → Option α × List α
  | [] => (none, [])
  | a :: rest =>
    if cond a then (some a, rest)
    else
      let (r, rest') := pickFirstMatching cond rest
      (r, a :: rest')

end DoubleLinkedList

/-! Tasks, options and the scheduler state (capacity-limiter.ts). -/

/-- Options of the retry strategy (calculate-retry-timeout.ts). -/
structure RetryOptions where
  retries : Option ℕ := none
  minTimeout : Option ℕ := none
  maxTimeout : Option ℕ := none
  randomize : Bool := false
  factor : Option ℚ := none
deriving DecidableEq, Repr

/-- Result of a custom fail-recovery hook (fail-recovery-manager.ts). -/
inductive OnFailureResult where
  | retryAfter (timeout : ℕ)
  | throwWith (e : TaskError)
deriving DecidableEq, Repr

/-- A fail-recovery strategy: `'none'`, the `'retry'` alias for default retry
options, retry with explicit options, or a custom hook.  The hook is caller
code; its (asynchronous) outcome is modelled as a stored deterministic
result. -/
inductive FailRecoveryStrategy where
  | strategyNone
  | strategyRetry
  | strategyRetryWith (o : RetryOptions)
  | strategyCustom (result : Option OnFailureResult)
deriving DecidableEq, Repr

/-- `calculateRetryTimeout` (calculate-retry-timeout.ts) with
`randomize = false` (the deterministic branch, `random = 1`):
`min(maxTimeout, round(max(minTimeout,1) * factor^(attempt-1)))`
with defaults `factor = 2`, `minTimeout = 1000`, `maxTimeout = Infinity`. -/
def calculateRetryTimeout (attempt : ℕ) (o : RetryOptions) : ℕ :=
  let factor : ℚ := o.factor.getD 2
  let minT : ℚ := (o.minTimeout.getD 1000 : ℕ)
  let timeout : ℤ := round (max minT 1 * factor ^ (attempt - 1))
  match o.maxTimeout with
  | some m => min timeout.toNat m
  | none => timeout.toNat

/-- Per-task option overrides (the `params` record kept on a task). -/
structure TaskParams where
  queueWaitingLimit : Option ℕ := none
  queueWaitingTimeout : Option ℕ := none
  executionTimeout : Option ℕ := none
  failRecoveryStrategy : Option FailRecoveryStrategy := none
deriving DecidableEq, Repr

/-- The internal `Task` record.  Timer handles become a flag plus the armed
deadline; `resolve`/`reject`/`promise` become the per-id channel ledger of the
scheduler state. -/
structure Task where
  id : ℕ
  priority : ℤ
  capacity : ℚ
  reservedCapacity : ℚ := 0
  reservedConcurrent : ℕ := 0
  timeAdded : ℕ
  timeLimit : Option ℕ := none
  retryAttempt : ℕ := 0
  hasQueueWaitingTimer : Bool := false
  queueWaitingDeadline : Option ℕ := none
  hasExecutionTimer : Bool := false
  executionDeadline : Option ℕ := none
  params : TaskParams := {}
deriving DecidableEq, Repr

/-- The caller-facing options record (`CapacityLimiterOptions`).
`minDelayBetweenTasks` is carried because the package README and tests pass
it, but the implementation file in the sources never declares or reads it
(see the C9 theorems). -/
structure Options where
  maxCapacity : Option ℚ := none
  initiallyUsedCapacity : Option ℚ := none
  capacityStrategy : Option CapacityStrategy := none
  releaseRules : Option (List ReleaseRule) := none
  taskExceedsMaxCapacityStrategy : Option ExceedsStrategy := none
  maxConcurrent : Option ℕ := none
  maxQueueSize : Option ℕ := none
  queueSizeExceededStrategy : Option QueueFullStrategy := none
  queueWaitingLimit : Option ℕ := none
  queueWaitingTimeout : Option ℕ := none
  executionTimeout : Option ℕ := none
  failRecoveryStrategy : Option FailRecoveryStrategy := none
  minDelayBetweenTasks : Option ℚ := none
deriving DecidableEq, Repr

/-- The options record after `{...defaultOptions, ...options}`: the three
defaulted fields become mandatory. -/
structure SchedOptions where
  maxCapacity : Option ℚ := none
  initiallyUsedCapacity : Option ℚ := none
  capacityStrategy : CapacityStrategy := .reserve
  releaseRules : Option (List ReleaseRule) := none
  taskExceedsMaxCapacityStrategy : ExceedsStrategy := .throwError
  maxConcurrent : Option ℕ := none
  maxQueueSize : Option ℕ := none
  queueSizeExceededStrategy : QueueFullStrategy := .throwError
  queueWaitingLimit : Option ℕ := none
  queueWaitingTimeout : Option ℕ := none
  executionTimeout : Option ℕ := none
  failRecoveryStrategy : Option FailRecoveryStrategy := none
deriving DecidableEq, Repr

/-- Spread of the defaults: `{...defaultOptions, ...options}` with
`capacityStrategy: 'reserve'`, `taskExceedsMaxCapacityStrategy: 'throw-error'`,
`queueSizeExceededStrategy: 'throw-error'`. -/
def mergeDefaults (o : Options) : SchedOptions where
  maxCapacity := o.maxCapacity
  initiallyUsedCapacity := o.initiallyUsedCapacity
  capacityStrategy := o.capacityStrategy.getD .reserve
  releaseRules := o.releaseRules
  taskExceedsMaxCapacityStrategy := o.taskExceedsMaxCapacityStrategy.getD .throwError
  maxConcurrent := o.maxConcurrent
  maxQueueSize := o.maxQueueSize
  queueSizeExceededStrategy := o.queueSizeExceededStrategy.getD .throwError
  queueWaitingLimit := o.queueWaitingLimit
  queueWaitingTimeout := o.queueWaitingTimeout
  executionTimeout := o.executionTimeout
  failRecoveryStrategy := o.failRecoveryStrategy

/-- JavaScript truthiness of an optional number: `undefined` and `0` are
falsy. -/
def natTruthy (o : Option ℕ) : Bool := o.getD 0 != 0

/-- The bookkeeping record created by `stop()` (`this.stopped = {}`), tagged
with a generation so distinct stop calls are distinguishable; `hasResolver`
records whether `stoppedPromise`/`stoppedResolve` were installed. -/
structure StopRec where
  gen : ℕ
  hasResolver : Bool := false
deriving DecidableEq, Repr

/-- The whole observable scheduler state, together with event ledgers
(settled channels, dispatch order, stop-resolver bookkeeping) that record the
externally visible behaviour. -/
structure LimiterState where
  usedCapacity : ℚ := 0
  usedConcurrent : ℕ := 0
  queue : List Task := []
  tasksByTimeAdded : List Task := []
  tasksByTimeLimit : List Task := []
  executingTasks : List Task := []
  options : SchedOptions
  originalOptions : Options
  releaseTimers : List (ReleaseRule × RuleStatus) := []
  releaseRuleTimersEnabled : Bool := false
  retryTimers : List (Task × ℕ) := []
  pendingHooks : List (Task × TaskError) := []
  stopped : Option StopRec := none
  nextStopGen : ℕ := 1
  channels : List (ℕ × ChannelOutcome) := []
  dispatchLog : List (ℕ × ℕ) := []
  resolverCreatedLog : List ℕ := []
  resolverResolvedLog : List ℕ := []
deriving DecidableEq, Repr

/-! Validation helpers (`checkMaxCapacity`, `checkUsedCapacity`,
`checkCapacityStrategy`, `checkReleaseRules`): a thrown
`CapacityLimiterError` becomes `some` of its type. -/

/-- Rejects a negative `maxCapacity` with `invalid-argument`. -/
def checkMaxCapacity (maxCapacity : Option ℚ) : Option ErrorType :=
  match maxCapacity with
  | none => none
  | some m => if m < 0 then some .invalidArgument else none

/-- Rejects a used capacity set without `maxCapacity` (`invalid-call`),
negative (`invalid-argument`) or above `maxCapacity` (`invalid-argument`). -/
def checkUsedCapacity (usedCapacity maxCapacity : Option ℚ) : Option ErrorType :=
  match usedCapacity with
  | none => none
  | some u =>
    match maxCapacity with
    | none => some .invalidCall
    | some m =>
      if u < 0 then some .invalidArgument
      else if m < u then some .invalidArgument
      else none

/-- Rejects `capacityStrategy` without `maxCapacity`. -/
def checkCapacityStrategy (cs : Option CapacityStrategy) (mc : Option ℚ) : Option ErrorType :=
  if cs.isSome && mc.isNone then some .invalidArgument else none

/-- Rejects a non-empty `releaseRules` list without `maxCapacity`. -/
def checkReleaseRules (rr : Option (List ReleaseRule)) (mc : Option ℚ) : Option ErrorType :=
  match rr with
  | some l => if l ≠ [] ∧ mc.isNone then some .invalidArgument else none
  | none => none

/-- `ReleaseRuleManager.setRules`: keep the status of rules that remain
configured, create fresh statuses (`lastApplied := now`, timer armed only if
timers are enabled) for newcomers, and drop statuses of removed rules.  The JS
`Map` is keyed by rule object identity; the embedding keys by rule value, which
coincides for the duplicate-free configurations the claims use. -/
def setRules (now : ℕ) (timersEnabled : Bool)
    (old : List (ReleaseRule × RuleStatus)) (rules : List ReleaseRule) :
    List (ReleaseRule × RuleStatus) :=
  let kept := old.filter fun e => rules.contains e.1
  let added := (rules.filter fun r => !old.any fun e => e.1 == r).map
    fun r => (r, { lastApplied := now, hasTimer := timersEnabled : RuleStatus })
  kept ++ added

/-- The `CapacityLimiter` constructor: validate, snapshot the original
options, merge defaults, seed `usedCapacity`, install release rules. -/
def construct (o : Options) (now : ℕ) : Except ErrorType LimiterState :=
  match checkMaxCapacity o.maxCapacity with
  | some e => .error e
  | none =>
  match checkUsedCapacity o.initiallyUsedCapacity o.maxCapacity with
  | some e => .error e
  | none =>
  match checkCapacityStrategy o.capacityStrategy o.maxCapacity with
  | some e => .error e
  | none =>
  match checkReleaseRules o.releaseRules o.maxCapacity with
  | some e => .error e
  | none =>
    .ok { usedCapacity := (mergeDefaults o).initiallyUsedCapacity.getD 0
          options := mergeDefaults o
          originalOptions := o
          releaseTimers := setRules now false [] (o.releaseRules.getD []) }

/-! State helpers shared by the scheduler methods. -/

/-- Settle a task's single-shot result channel; settling an already settled
channel is a no-op (Promise semantics). -/
def settleChannel (s : LimiterState) (tid : ℕ) (out : ChannelOutcome) : LimiterState :=
  if s.channels.any fun e => e.1 == tid then s
  else { s with channels := s.channels ++ [(tid, out)] }

/-- `DoubleLinkedList.delete` for task lists: remove the task's node (found by
identity, here by id). -/
def deleteTask (l : List Task) (t : Task) : List Task :=
  l.eraseP fun x => x.id == t.id

/-- `removeTaskFromQueues`: delete the task from all three pending indices. -/
def removeTaskFromQueues (s : LimiterState) (t : Task) : LimiterState :=
  { s with queue := deleteTask s.queue t
           tasksByTimeAdded := deleteTask s.tasksByTimeAdded t
           tasksByTimeLimit := deleteTask s.tasksByTimeLimit t }

/-- `ReleaseRuleManager.enableTimers`: when currently disabled, mark enabled,
apply the missed rules at `now`, and arm every rule's timer. -/
def enableTimersM (s : LimiterState) (now : ℕ) : LimiterState :=
  if s.releaseRuleTimersEnabled then s
  else
    let (entries, used) := applyMissedRules now s.releaseTimers s.usedCapacity
    { s with releaseRuleTimersEnabled := true
             releaseTimers := entries.map fun e => (e.1, { e.2 with hasTimer := true })
             usedCapacity := used }

/-- `ReleaseRuleManager.disableTimers`: when currently enabled, mark disabled
and clear every rule's timer. -/
def disableTimersM (s : LimiterState) : LimiterState :=
  if !s.releaseRuleTimersEnabled then s
  else
    { s with releaseRuleTimersEnabled := false
             releaseTimers := s.releaseTimers.map fun e => (e.1, { e.2 with hasTimer := false }) }

/-- `canFitTask`: with no `maxCapacity` any task fits; otherwise
`usedCapacity + task.capacity ≤ maxCapacity`. -/
def canFitTask (s : LimiterState) (t : Task) : Bool :=
  match s.options.maxCapacity with
  | none => true
  | some m => decide (s.usedCapacity + t.capacity ≤ m)

/-- The concurrency gate of the scheduler loop:
`this.options.maxConcurrent && this.usedConcurrent >= this.options.maxConcurrent`
(a configured `maxConcurrent` of 0 is falsy, hence no limit). -/
def maxConcurrentSaturated (s : LimiterState) : Bool :=
  match s.options.maxConcurrent with
  | some m => m != 0 && decide (m ≤ s.usedConcurrent)
  | none => false

/-- Task selection of `startNextTaskIfPossible` (capacity-limiter.ts lines
496-516): if the head of `tasksByTimeLimit` has an expired time limit, select
it when it fits and select nothing at all when it does not; otherwise scan the
priority queue for the first task that fits. -/
def selectTaskToExecute (s : LimiterState) (now : ℕ) : Option Task :=
  match s.tasksByTimeLimit.head? with
  | some important =>
    match important.timeLimit with
    | some tl =>
      if tl ≤ now then
        if canFitTask s important then some important else none
      else (DoubleLinkedList.pickFirstMatching (canFitTask s) s.queue).1
    | none => (DoubleLinkedList.pickFirstMatching (canFitTask s) s.queue).1
  | none => (DoubleLinkedList.pickFirstMatching (canFitTask s) s.queue).1

/-- The execution-timer arming of `executeTask`: when an execution timeout is
in effect (task override `??` scheduler option, `0` falsy), record the armed
timer and its deadline on the task. -/
def armExecutionTimer (o : SchedOptions) (t : Task) (now : ℕ) : Task :=
  let executionTimeout := t.params.executionTimeout.or o.executionTimeout
  if natTruthy executionTimeout then
    { t with hasExecutionTimer := true, executionDeadline := some (now + executionTimeout.getD 0) }
  else t

/-- `executeTask` without the callback invocation itself: arm the execution
timer and move the task into the executing set.  The callback's outcome
arrives later as a separate event. -/
def executeTask (s : LimiterState) (t : Task) (now : ℕ) : LimiterState :=
  { s with executingTasks := s.executingTasks ++ [armExecutionTimer s.options t now]
           dispatchLog := s.dispatchLog ++ [(t.id, now)] }

/-- The task-record mutations of the scheduler loop's dispatch (lines
518-535): under a defined `maxCapacity` and the `reserve` strategy record
`reservedCapacity = capacity`, clear the queue-waiting timer, and take one
concurrency slot. -/
def reservedTask (s : LimiterState) (t : Task) : Task :=
  let t := match s.options.maxCapacity with
    | some _ =>
      if s.options.capacityStrategy = CapacityStrategy.reserve then
        { t with reservedCapacity := t.capacity }
      else t
    | none => t
  let t :=
    if t.hasQueueWaitingTimer then
      { t with hasQueueWaitingTimer := false, queueWaitingDeadline := none }
    else t
  { t with reservedConcurrent := 1 }

/-- Resource reservation and index removal of the scheduler loop (lines
518-541): reserve capacity and a concurrency slot, and remove the task from
the pending indices (`tasksByTimeLimit` only when its `timeLimit` is
truthy). -/
def dispatchTask (s : LimiterState) (t : Task) (now : ℕ) : LimiterState :=
  let t := reservedTask s t
  let s := match s.options.maxCapacity with
    | some _ => { s with usedCapacity := s.usedCapacity + t.capacity }
    | none => s
  let s := { s with usedConcurrent := s.usedConcurrent + 1 }
  let s := { s with
    queue := deleteTask s.queue t
    tasksByTimeAdded := deleteTask s.tasksByTimeAdded t
    tasksByTimeLimit :=
      if natTruthy t.timeLimit then deleteTask s.tasksByTimeLimit t else s.tasksByTimeLimit }
  executeTask s t now

/-- One pass of `startNextTaskIfPossible` with explicit fuel (the recursion
re-enters only after removing a task from the queue, so `queue.length + 1`
fuel is always enough): stop-drain signalling, concurrency gate, selection,
dispatch, and either release-rule timer shutdown (empty queue) or
recursion. -/
def startNextGo (now : ℕ) : ℕ → LimiterState → LimiterState
  | 0, s => s
  | fuel + 1, s =>
    if s.stopped.isSome && s.queue.length == 0 then
      match s.stopped with
      | some r =>
        if r.hasResolver then { s with resolverResolvedLog := s.resolverResolvedLog ++ [r.gen] }
        else s
      | none => s
    else if maxConcurrentSaturated s then s
    else
      match selectTaskToExecute s now with
      | none => s
      | some t =>
        let s1 := dispatchTask s t now
        if s1.queue.length == 0 then disableTimersM s1
        else startNextGo now fuel s1

/-- `startNextTaskIfPossible`. -/
def startNextTaskIfPossible (s : LimiterState) (now : ℕ) : LimiterState :=
  startNextGo now (s.queue.length + 1) s

/-- `releaseTaskResources`: clear the time limit, release the concurrency slot
and (when truthy and `maxCapacity` is defined) the reserved capacity with
`max(0, ...)` clamping, and cancel the execution timer.  Returns the updated
scheduler state and task. -/
def releaseTaskResources (s : LimiterState) (t : Task) : LimiterState × Task :=
  let t := { t with timeLimit := none }
  let p :=
    if t.reservedConcurrent != 0 then
      ({ s with usedConcurrent := s.usedConcurrent - t.reservedConcurrent },
       { t with reservedConcurrent := 0 })
    else (s, t)
  let s := p.1
  let t := p.2
  let q :=
    if t.reservedCapacity != 0 && s.options.maxCapacity.isSome then
      ({ s with usedCapacity := max 0 (s.usedCapacity - t.reservedCapacity) },
       { t with reservedCapacity := 0 })
    else (s, t)
  let s := q.1
  let t := q.2
  let t :=
    if t.hasExecutionTimer then { t with hasExecutionTimer := false, executionDeadline := none }
    else t
  (s, t)

/-- `resolveTask`: release resources, resolve the channel, re-run the loop. -/
def resolveTask (s : LimiterState) (t : Task) (now : ℕ) : LimiterState :=
  let p := releaseTaskResources s t
  startNextTaskIfPossible (settleChannel p.1 t.id .success) now

/-- Default retries limit of the fail-recovery manager. -/
def defaultRetriesLimit : ℕ := 10

/-- Maximum task priority. -/
def maxPriority : ℤ := 9

/-- `FailRecoveryManager.setRetryTimer`: `onScheduledRetry(timeout)` sets the
task's `timeLimit` to `now + timeout` (the timer's fire moment) and a retry
timer is armed for that moment. -/
def setRetryTimer (s : LimiterState) (t : Task) (timeout : ℕ) (now : ℕ) : LimiterState :=
  let t := { t with timeLimit := some (now + timeout) }
  { s with retryTimers := s.retryTimers ++ [(t, now + timeout)] }

/-- `FailRecoveryManager.useStrategy` for a retry strategy: reject with the
original error when the attempt exceeds the retries limit, otherwise arm a
retry timer with the calculated timeout. -/
def useStrategyRetry (s : LimiterState) (t : Task) (o : RetryOptions)
    (err : TaskError) (now : ℕ) : LimiterState :=
  if t.retryAttempt > o.retries.getD defaultRetriesLimit then
    settleChannel s t.id (.failure err)
  else
    setRetryTimer s t (calculateRetryTimeout t.retryAttempt o) now

/-- `tryRejectTask`: release resources, then consult the effective
fail-recovery strategy (task override `??` scheduler default).  A present
strategy other than `'none'` increments `retryAttempt` and is applied (custom
hooks resolve asynchronously and are parked in `pendingHooks`); otherwise the
channel is rejected with the error.  The loop is re-run in every case. -/
def tryRejectTask (s : LimiterState) (t : Task) (err : TaskError) (now : ℕ) : LimiterState :=
  let p := releaseTaskResources s t
  let s1 := p.1
  let t1 := p.2
  let strat := t1.params.failRecoveryStrategy.or s1.options.failRecoveryStrategy
  let s2 := match strat with
    | some .strategyNone => settleChannel s1 t1.id (.failure err)
    | some .strategyRetry =>
      useStrategyRetry s1 { t1 with retryAttempt := t1.retryAttempt + 1 } {} err now
    | some (.strategyRetryWith o) =>
      useStrategyRetry s1 { t1 with retryAttempt := t1.retryAttempt + 1 } o err now
    | some (.strategyCustom _) =>
      { s1 with pendingHooks :=
          s1.pendingHooks ++ [({ t1 with retryAttempt := t1.retryAttempt + 1 }, err)] }
    | none => settleChannel s1 t1.id (.failure err)
  startNextTaskIfPossible s2 now

/-- Queue-overflow handling of `scheduleTask` (the `maxQueueSize` block):
returns the updated state and whether admission proceeds. -/
def handleQueueOverflow (s : LimiterState) (t : Task) : LimiterState × Bool :=
  if natTruthy s.options.maxQueueSize && decide (s.options.maxQueueSize.getD 0 ≤ s.queue.length) then
    match s.options.queueSizeExceededStrategy with
    | .throwError => (settleChannel s t.id (.failure (.engine .queueSizeExceeded)), false)
    | .replaceByPriority =>
      match s.queue.getLast? with
      | some victim =>
        if victim.priority > t.priority then
          (settleChannel (removeTaskFromQueues s victim) victim.id
            (.failure (.engine .queueSizeExceeded)), true)
        else
          (settleChannel s t.id (.failure (.engine .queueSizeExceeded)), false)
      | none => (settleChannel s t.id (.failure (.engine .queueSizeExceeded)), false)
    | .replaceOldest =>
      match s.tasksByTimeAdded.head? with
      | some oldest =>
        (settleChannel
          (removeTaskFromQueues { s with tasksByTimeAdded := s.tasksByTimeAdded.tail } oldest)
          oldest.id (.failure (.engine .queueSizeExceeded)), true)
      | none => (s, true)
  else (s, true)

/-- `scheduleTask`: admission of a task.  Synchronous throws become
`Except.error`; rejections delivered through the result channel leave the call
successful.  Mutations of the task record that the source performs after
inserting it into the indices (time limit, waiting timer) are computed first
here, since the indices share the task by value rather than by reference and
the insertion position does not depend on the mutated fields. -/
def scheduleTask (s : LimiterState) (t : Task) (now : ℕ) : Except ErrorType LimiterState :=
  if s.stopped.isSome then
    .ok (settleChannel s t.id (.failure (.engine .limiterStopped)))
  else
    match (match s.options.maxCapacity with
      | some m =>
        if m < t.capacity then
          if s.options.taskExceedsMaxCapacityStrategy = ExceedsStrategy.throwError then none
          else some { t with capacity := m }
        else some t
      | none => some t) with
    | none => .error .maxCapacityExceeded
    | some t =>
      if t.capacity < 0 then .error .invalidArgument
      else if t.priority < 0 ∨ maxPriority < t.priority then .error .invalidArgument
      else
        let p := handleQueueOverflow s t
        if !p.2 then .ok p.1
        else
          let s := p.1
          let queueWaitingLimit := t.params.queueWaitingLimit.or s.options.queueWaitingLimit
          let t :=
            if natTruthy queueWaitingLimit && !natTruthy t.timeLimit then
              { t with timeLimit := some (t.timeAdded + queueWaitingLimit.getD 0) }
            else t
          let queueWaitingTimeout := t.params.queueWaitingTimeout.or s.options.queueWaitingTimeout
          let t :=
            if natTruthy queueWaitingTimeout && t.retryAttempt == 0 then
              { t with hasQueueWaitingTimer := true
                       queueWaitingDeadline := some (now + queueWaitingTimeout.getD 0) }
            else t
          let s := { s with
            queue := DoubleLinkedList.putAfter (fun e => e.priority ≤ t.priority) t s.queue
            tasksByTimeAdded := s.tasksByTimeAdded ++ [t] }
          let s :=
            if natTruthy t.timeLimit then
              { s with tasksByTimeLimit :=
                  (DoubleLinkedList.putBefore
                    (fun e => decide (t.timeLimit.getD 0 < e.timeLimit.getD 0)) t
                    s.tasksByTimeLimit) }
            else s
          .ok (startNextTaskIfPossible (enableTimersM s now) now)

/-- Parameters of the `stop()` method. -/
structure StopParams where
  stopAll : Bool := false
  stopWaitingTasks : Bool := false
  rejectExecutingTasks : Bool := false
  stopTaskRetries : Bool := false
deriving DecidableEq, Repr

/-- `FailRecoveryManager.rejectAll`: cancel every retry timer and reject every
awaiting task with the error. -/
def rejectAllRetries (s : LimiterState) (err : TaskError) : LimiterState :=
  let s := s.retryTimers.foldl
    (fun acc (p : Task × ℕ) => settleChannel acc p.1.id (.failure err)) s
  { s with retryTimers := [] }

/-- `stop()`: `stopAll` expands to the three flags; the rejection block runs
only under the source's guard, which tests `stopWaitingTasks` twice and never
`stopTaskRetries` (capacity-limiter.ts line 890); a fresh stop record replaces
any previous one, and with a non-empty queue a resolver is installed and the
loop re-run. -/
def stopCall (s : LimiterState) (params? : Option StopParams) (now : ℕ) : LimiterState :=
  let params? : Option StopParams := match params? with
    | some p =>
      if p.stopAll then
        some { stopWaitingTasks := true, rejectExecutingTasks := true, stopTaskRetries := true }
      else some p
    | none => none
  let s := match params? with
    | some p =>
      if p.stopWaitingTasks || p.rejectExecutingTasks || p.stopWaitingTasks then
        let s :=
          if p.stopWaitingTasks then
            let s := s.queue.foldl
              (fun acc (t : Task) => settleChannel acc t.id (.failure (.engine .limiterStopped))) s
            { s with queue := [], tasksByTimeAdded := [], tasksByTimeLimit := [] }
          else s
        let s :=
          if p.rejectExecutingTasks then
            let s := s.executingTasks.foldl
              (fun acc (t : Task) => settleChannel acc t.id (.failure (.engine .limiterStopped))) s
            { s with executingTasks := [] }
          else s
        if p.stopTaskRetries then rejectAllRetries s (.engine .limiterStopped) else s
      else s
    | none => s
  let gen := s.nextStopGen
  let s := { s with stopped := some { gen := gen }, nextStopGen := gen + 1 }
  if s.queue.length > 0 then
    let s := { s with stopped := some { gen := gen, hasResolver := true }
                      resolverCreatedLog := s.resolverCreatedLog ++ [gen] }
    startNextTaskIfPossible s now
  else s

/-- `setUsedCapacity`: validate against `maxCapacity`, set, re-run the loop. -/
def setUsedCapacityCall (s : LimiterState) (v : ℚ) (now : ℕ) : Except ErrorType LimiterState :=
  match checkUsedCapacity (some v) s.options.maxCapacity with
  | some e => .error e
  | none => .ok (startNextTaskIfPossible { s with usedCapacity := v } now)

/-- `adjustUsedCapacity`: requires `maxCapacity`; clamps to
`[0, maxCapacity]`; re-runs the loop. -/
def adjustUsedCapacityCall (s : LimiterState) (d : ℚ) (now : ℕ) : Except ErrorType LimiterState :=
  match s.options.maxCapacity with
  | none => .error .invalidCall
  | some m =>
    .ok (startNextTaskIfPossible
      { s with usedCapacity := min (max 0 (s.usedCapacity + d)) m } now)

/-- `getUsedCapacity`: apply missed rules first when timers are disabled. -/
def getUsedCapacityCall (s : LimiterState) (now : ℕ) : LimiterState × ℚ :=
  if !s.releaseRuleTimersEnabled then
    let p := applyMissedRules now s.releaseTimers s.usedCapacity
    ({ s with releaseTimers := p.1, usedCapacity := p.2 }, p.2)
  else (s, s.usedCapacity)

/-- `setOptions`: same validation as construction except the used-capacity
check, then replace the option records and update the rules. -/
def setOptionsCall (s : LimiterState) (o : Options) (now : ℕ) : Except ErrorType LimiterState :=
  match checkMaxCapacity o.maxCapacity with
  | some e => .error e
  | none =>
  match checkCapacityStrategy o.capacityStrategy o.maxCapacity with
  | some e => .error e
  | none =>
  match checkReleaseRules o.releaseRules o.maxCapacity with
  | some e => .error e
  | none =>
    .ok { s with options := mergeDefaults o
                 originalOptions := o
                 releaseTimers :=
                   setRules now s.releaseRuleTimersEnabled s.releaseTimers (o.releaseRules.getD []) }

/-- `applyRuleByInterval` (a release rule's periodic timer fires): stamp
`lastApplied`, apply the rule once, ping the loop. -/
def applyRuleByIntervalM (s : LimiterState) (idx : ℕ) (now : ℕ) : LimiterState :=
  match s.releaseTimers.get? idx with
  | some (r, st) =>
    let s := { s with
      releaseTimers := s.releaseTimers.set idx (r, { st with lastApplied := now })
      usedCapacity := applyRuleToUsed r 1 s.usedCapacity }
    startNextTaskIfPossible s now
  | none => s

/-! The operations of an admissible run and the step function that folds
them.  Each operation carries the wall-clock time at which it happens; guards
reject events that the runtime could not deliver (a completion for a task that
is not executing, a timer that was never armed or has not reached its
deadline, and so on). -/

/-- Externally triggered scheduler operations. -/
inductive Op where
  | opSchedule (t : Task) (now : ℕ)
  | opComplete (tid : ℕ) (now : ℕ)
  | opFail (tid : ℕ) (err : TaskError) (now : ℕ)
  | opExecTimeout (tid : ℕ) (now : ℕ)
  | opQueueTimeout (tid : ℕ) (now : ℕ)
  | opRetryFire (tid : ℕ) (now : ℕ)
  | opRuleFire (idx : ℕ) (now : ℕ)
  | opGetUsedCapacity (now : ℕ)
  | opSetUsedCapacity (v : ℚ) (now : ℕ)
  | opAdjustUsedCapacity (d : ℚ) (now : ℕ)
  | opSetOptions (o : Options) (now : ℕ)
  | opStop (p : Option StopParams) (now : ℕ)
deriving DecidableEq, Repr

/-- Whether a task id is already known to the scheduler. -/
def taskIdUsed (s : LimiterState) (tid : ℕ) : Bool :=
  (s.queue.any fun t => t.id == tid) ||
  (s.tasksByTimeAdded.any fun t => t.id == tid) ||
  (s.tasksByTimeLimit.any fun t => t.id == tid) ||
  (s.executingTasks.any fun t => t.id == tid) ||
  (s.retryTimers.any fun p => p.1.id == tid) ||
  (s.pendingHooks.any fun p => p.1.id == tid) ||
  (s.channels.any fun p => p.1 == tid)

/-- A task as freshly built by the public `schedule()` wrapper: fresh id,
admission timestamp `now`, and all runtime fields at their initial values. -/
def freshTask (s : LimiterState) (t : Task) (now : ℕ) : Bool :=
  !taskIdUsed s t.id && t.timeAdded == now &&
  t.reservedCapacity == 0 && t.reservedConcurrent == 0 && t.retryAttempt == 0 &&
  t.timeLimit == none && !t.hasQueueWaitingTimer && t.queueWaitingDeadline == none &&
  !t.hasExecutionTimer && t.executionDeadline == none

/-- Find an executing task by id. -/
def findExecuting (s : LimiterState) (tid : ℕ) : Option Task :=
  s.executingTasks.find? fun t => t.id == tid

/-- Remove an executing task by id (`this.executingTasks.delete(task)`). -/
def removeExecuting (s : LimiterState) (tid : ℕ) : LimiterState :=
  { s with executingTasks := s.executingTasks.eraseP fun t => t.id == tid }

/-- One scheduler step.  `none` means the operation is not admissible in the
state; a synchronous throw (`Except.error` from the method) leaves the
scheduler state unchanged but the step admissible. -/
def step (s : LimiterState) : Op → Option LimiterState
  | .opSchedule t now =>
    if freshTask s t now then
      match scheduleTask s t now with
      | .ok s' => some s'
      | .error _ => some s
    else none
  | .opComplete tid now =>
    match findExecuting s tid with
    | some t => some (resolveTask (removeExecuting s tid) t now)
    | none => none
  | .opFail tid err now =>
    match findExecuting s tid with
    | some t => some (tryRejectTask (removeExecuting s tid) t err now)
    | none => none
  | .opExecTimeout tid now =>
    match findExecuting s tid with
    | some t =>
      if t.hasExecutionTimer && decide (t.executionDeadline.getD 0 ≤ now) then
        some (tryRejectTask (removeExecuting s tid) t (.engine .executionTimeout) now)
      else none
    | none => none
  | .opQueueTimeout tid now =>
    match s.queue.find? fun t => t.id == tid with
    | some t =>
      if t.hasQueueWaitingTimer && decide (t.queueWaitingDeadline.getD 0 ≤ now) then
        some (settleChannel (removeTaskFromQueues s t) t.id (.failure (.engine .queueTimeout)))
      else none
    | none => none
  | .opRetryFire tid now =>
    match s.retryTimers.find? fun p => p.1.id == tid with
    | some (t, fire) =>
      if fire ≤ now then
        let s1 := { s with retryTimers := s.retryTimers.eraseP fun p => p.1.id == tid }
        match scheduleTask s1 t now with
        | .ok s2 => some s2
        | .error _ => some s1
      else none
    | none => none
  | .opRuleFire idx now =>
    if s.releaseRuleTimersEnabled && (s.releaseTimers.get? idx).isSome then
      some (applyRuleByIntervalM s idx now)
    else none
  | .opGetUsedCapacity now => some (getUsedCapacityCall s now).1
  | .opSetUsedCapacity v now =>
    match setUsedCapacityCall s v now with
    | .ok s' => some s'
    | .error _ => some s
  | .opAdjustUsedCapacity d now =>
    match adjustUsedCapacityCall s d now with
    | .ok s' => some s'
    | .error _ => some s
  | .opSetOptions o now =>
    match setOptionsCall s o now with
    | .ok s' => some s'
    | .error _ => some s
  | .opStop p now => some (stopCall s p now)

/-- Fold a list of operations through `step`. -/
def runOps : LimiterState → List Op → Option LimiterState
  | s, [] => some s
  | s, op :: rest =>
    match step s op with
    | some s' => runOps s' rest
    | none => none

/-- Run from a freshly constructed limiter. -/
def runFrom (o : Options) (now : ℕ) (ops : List Op) : Option LimiterState :=
  match construct o now with
  | .ok s => runOps s ops
  | .error _ => none

/-! Structural lemmas about the linked-list operations. -/

namespace DoubleLinkedList

variable {α : Type*}

/-- `putBefore` splits the list at the first condition match: everything left
of the inserted element fails the condition. -/
theorem putBefore_split (cond : α → Bool) (x : α) :
    ∀ l : List α, ∃ l1 l2, putBefore cond x l = l1 ++ x :: l2 ∧ l = l1 ++ l2 ∧
      ∀ y ∈ l1, cond y = false
  | [] => ⟨[], [], rfl, rfl, by simp⟩
  | a :: rest => by
    by_cases ha : cond a
    · exact ⟨[], a :: rest, by simp [putBefore, ha], rfl, by simp⟩
    · obtain ⟨l1, l2, h1, h2, h3⟩ := putBefore_split cond x rest
      refine ⟨a :: l1, l2, ?_, by simp [h2], ?_⟩
      · simp [putBefore, ha, h1]
      · intro y hy
        rcases List.mem_cons.mp hy with rfl | hy
        · simpa using ha
        · exact h3 y hy

/-- `putAfter` splits the list at the last condition match: everything right
of the inserted element fails the condition. -/
theorem putAfter_split (cond : α → Bool) (x : α) (l : List α) :
    ∃ l1 l2, putAfter cond x l = l1 ++ x :: l2 ∧ l = l1 ++ l2 ∧
      ∀ y ∈ l2, cond y = false := by
  obtain ⟨m1, m2, h1, h2, h3⟩ := putBefore_split cond x l.reverse
  refine ⟨m2.reverse, m1.reverse, ?_, ?_, fun y hy => h3 y (by simpa using hy)⟩
  · simp [putAfter, h1]
  · have : l.reverse.reverse = (m1 ++ m2).reverse := by rw [h2]
    simpa using this

/-- The element picked by `pickFirstMatching` is the first match (`find?`). -/
theorem pickFirstMatching_fst (cond : α → Bool) :
    ∀ l : List α, (pickFirstMatching cond l).1 = l.find? cond
  | [] => rfl
  | a :: rest => by
    by_cases ha : cond a <;>
      simp [pickFirstMatching, List.find?_cons, ha, pickFirstMatching_fst cond rest]

end DoubleLinkedList

/-- `find?` on a list containing a match in its prefix returns an element of
that prefix. -/
theorem find?_mem_prefix {α : Type*} (cond : α → Bool) :
    ∀ (l1 : List α) (a : α) (l2 : List α), cond a = true →
      ∃ c ∈ l1 ++ [a], (l1 ++ a :: l2).find? cond = some c
  | [], a, l2, ha => ⟨a, by simp, by simp [List.find?_cons, ha]⟩
  | b :: rest, a, l2, ha => by
    by_cases hb : cond b
    · exact ⟨b, by simp, by simp [List.find?_cons, hb]⟩
    · obtain ⟨c, hc1, hc2⟩ := find?_mem_prefix cond rest a l2 ha
      refine ⟨c, ?_, by simp [List.find?_cons, hb, hc2]⟩
      simp only [List.cons_append, List.mem_cons]
      exact Or.inr (by simpa using hc1)

/-! C5: FIFO among equal priorities. -/

/-- C5 counterexample configuration: `maxCapacity` 10, 5 already in use. -/
def c5Options : Options := { maxCapacity := some 10, initiallyUsedCapacity := some 5 }

/-- C5: task admitted first (equal priority 5, capacity 8). -/
def c5TaskA : Task := { id := 1, priority := 5, capacity := 8, timeAdded := 0 }

/-- C5: task admitted second (equal priority 5, capacity 2). -/
def c5TaskB : Task := { id := 2, priority := 5, capacity := 2, timeAdded := 1 }

/-- C5: an admissible run admitting both tasks, completing the second, then
freeing capacity manually so the first can run. -/
def c5Ops : List Op :=
  [.opSchedule c5TaskA 0, .opSchedule c5TaskB 1, .opComplete 2 2,
   .opAdjustUsedCapacity (-5) 3]

/-- C5 counterexample: two equal-priority tasks, the first admitted at time 0,
the second at time 1; over this admissible run both are dispatched, and the
dispatch order is task 2 before task 1 (the earlier task does not fit when the
scan runs, so the scan takes the later, smaller one). -/
theorem c5_counterexample :
    c5TaskA.priority = c5TaskB.priority ∧ c5TaskA.timeAdded < c5TaskB.timeAdded ∧
    (runFrom c5Options 0 c5Ops).map (fun s => s.dispatchLog.map Prod.fst) = some [2, 1] := by
  refine ⟨rfl, by norm_num [c5TaskA, c5TaskB], ?_⟩
  norm_num [c5Ops, runFrom, construct, mergeDefaults, checkMaxCapacity, checkUsedCapacity,
    checkCapacityStrategy, checkReleaseRules, setRules, runOps, step, freshTask, taskIdUsed,
    scheduleTask, handleQueueOverflow, natTruthy, enableTimersM, applyMissedRules,
    missedResetPass, missedReducePass, startNextTaskIfPossible, startNextGo,
    maxConcurrentSaturated, selectTaskToExecute, DoubleLinkedList.pickFirstMatching,
    DoubleLinkedList.putAfter, DoubleLinkedList.putBefore, canFitTask, dispatchTask,
    reservedTask, armExecutionTimer, executeTask, deleteTask, settleChannel,
    removeTaskFromQueues, disableTimersM,
    findExecuting, removeExecuting, resolveTask, releaseTaskResources, adjustUsedCapacityCall,
    c5Options, c5TaskA, c5TaskB, List.eraseP, Option.or, maxPriority,
    Bool.cond_eq_ite, beq_iff_eq, cond_true, cond_false]

/-- C5 (amended): admission preserves FIFO within a priority band — `putAfter`
places a newcomer so that every task at its priority or higher stays in front
of it — and the dispatch scan (when no time-limit promotion applies) selects
the earliest queued task that fits, so an earlier equal-priority task is
bypassed only when it does not fit the current capacity. -/
theorem c5_amended_fifo :
    (∀ (l : List Task) (t a : Task), a ∈ l → a.priority = t.priority →
      ∃ l1 l2, DoubleLinkedList.putAfter (fun e => e.priority ≤ t.priority) t l =
        l1 ++ t :: l2 ∧ a ∈ l1) ∧
    (∀ (s : LimiterState) (now : ℕ) (a : Task) (l1 l2 : List Task),
      s.tasksByTimeLimit = [] → s.queue = l1 ++ a :: l2 → canFitTask s a = true →
      ∃ c ∈ l1 ++ [a], selectTaskToExecute s now = some c) := by
  constructor
  · intro l t a hal hprio
    obtain ⟨l1, l2, h1, h2, h3⟩ :=
      DoubleLinkedList.putAfter_split (fun e => decide (e.priority ≤ t.priority)) t l
    refine ⟨l1, l2, h1, ?_⟩
    rw [h2] at hal
    rcases List.mem_append.mp hal with h | h
    · exact h
    · have hfalse := h3 a h
      rw [hprio] at hfalse
      simp at hfalse
  · intro s now a l1 l2 hempty hq hfit
    obtain ⟨c, hc1, hc2⟩ := find?_mem_prefix (canFitTask s) l1 a l2 hfit
    refine ⟨c, hc1, ?_⟩
    rw [selectTaskToExecute, hempty]
    simpa [DoubleLinkedList.pickFirstMatching_fst, hq] using hc2

/-- Witness for the amended C5 theorem: a two-task queue where the head does
not fit; the scan selects the head of the fitting prefix. -/
theorem c5_amended_fifo_witness :
    (c5TaskA ∈ [c5TaskA] ∧ c5TaskA.priority = c5TaskB.priority ∧
      ∃ l1 l2, DoubleLinkedList.putAfter (fun e => e.priority ≤ c5TaskB.priority) c5TaskB
        [c5TaskA] = l1 ++ c5TaskB :: l2 ∧ c5TaskA ∈ l1) ∧
    (∃ c ∈ ([] : List Task) ++ [c5TaskB],
      selectTaskToExecute
        { usedCapacity := 5, options := mergeDefaults c5Options,
          originalOptions := c5Options, queue := [c5TaskB, c5TaskA] } 0 = some c) := by
  refine ⟨⟨by simp, rfl, c5_amended_fifo.1 [c5TaskA] c5TaskB c5TaskA (by simp) rfl⟩, ?_⟩
  exact c5_amended_fifo.2
    { usedCapacity := 5, options := mergeDefaults c5Options,
      originalOptions := c5Options, queue := [c5TaskB, c5TaskA] } 0 c5TaskB [] [c5TaskA]
    rfl rfl (by norm_num [canFitTask, mergeDefaults, c5Options, c5TaskB])

/-! C6: time-limit promotion blocks lower-priority dispatch. -/

/-- C6: when the head of `tasksByTimeLimit` has an expired time limit, the
selection returns it if it fits the current capacity; when it does not fit,
the selection returns nothing at all — no other pending task of any priority
is picked — and (past the stop and concurrency gates) the scheduler loop
leaves the state untouched. -/
theorem c6_aged_head (s : LimiterState) (now : ℕ) (aged : Task) (tl : ℕ)
    (hhead : s.tasksByTimeLimit.head? = some aged)
    (htl : aged.timeLimit = some tl) (hnow : tl ≤ now) :
    (canFitTask s aged = true → selectTaskToExecute s now = some aged) ∧
    (canFitTask s aged = false → selectTaskToExecute s now = none) ∧
    (canFitTask s aged = false → (s.stopped.isSome && s.queue.length == 0) = false →
      maxConcurrentSaturated s = false → startNextTaskIfPossible s now = s) := by
  have hsel : ∀ b, canFitTask s aged = b →
      selectTaskToExecute s now = (if b then some aged else none) := by
    intro b hb
    simp only [selectTaskToExecute, hhead, htl, hnow, if_pos, hb]
  refine ⟨fun h => by simpa using hsel true h, fun h => by simpa using hsel false h, ?_⟩
  intro hfit hgate1 hgate2
  have hsel' := hsel false hfit
  simp only [startNextTaskIfPossible, startNextGo, hgate1, hgate2, hsel']
  simp

/-- C6 aged head task of the witness states. -/
def c6Aged : Task := { id := 7, priority := 9, capacity := 5, timeAdded := 0, timeLimit := some 50 }

/-- C6 witness state where the aged head does not fit (9 + 5 > 10). -/
def c6StateBlocked : LimiterState :=
  { usedCapacity := 9, options := mergeDefaults { maxCapacity := some 10 },
    originalOptions := { maxCapacity := some 10 },
    queue := [c6Aged], tasksByTimeLimit := [c6Aged] }

/-- C6 witness state where the aged head fits (3 + 5 ≤ 10). -/
def c6StateFits : LimiterState :=
  { usedCapacity := 3, options := mergeDefaults { maxCapacity := some 10 },
    originalOptions := { maxCapacity := some 10 },
    queue := [c6Aged], tasksByTimeLimit := [c6Aged] }

/-- Witness for C6: at `now = 100` the aged head (deadline 50) is selected
when it fits, and when it does not fit nothing is selected and the loop is a
no-op. -/
theorem c6_aged_head_witness :
    selectTaskToExecute c6StateFits 100 = some c6Aged ∧
    selectTaskToExecute c6StateBlocked 100 = none ∧
    startNextTaskIfPossible c6StateBlocked 100 = c6StateBlocked :=
  ⟨(c6_aged_head c6StateFits 100 c6Aged 50 rfl rfl (by norm_num)).1
      (by norm_num [canFitTask, c6StateFits, mergeDefaults, c6Aged]),
   (c6_aged_head c6StateBlocked 100 c6Aged 50 rfl rfl (by norm_num)).2.1
      (by norm_num [canFitTask, c6StateBlocked, mergeDefaults, c6Aged]),
   (c6_aged_head c6StateBlocked 100 c6Aged 50 rfl rfl (by norm_num)).2.2
      (by norm_num [canFitTask, c6StateBlocked, mergeDefaults, c6Aged]) rfl
      (by norm_num [maxConcurrentSaturated, c6StateBlocked, mergeDefaults])⟩

/-- The used capacity after `releaseTaskResources`: reduced by the reserved
amount (clamped at 0) when a reservation exists and `maxCapacity` is defined,
unchanged otherwise. -/
theorem releaseTaskResources_usedCapacity (s : LimiterState) (t : Task)
    (hmc : s.options.maxCapacity.isSome = true) :
    (releaseTaskResources s t).1.usedCapacity =
      if t.reservedCapacity ≠ 0 then max 0 (s.usedCapacity - t.reservedCapacity)
      else s.usedCapacity := by
  unfold releaseTaskResources
  by_cases h1 : t.reservedConcurrent = 0 <;> by_cases h2 : t.reservedCapacity = 0 <;>
    simp [h1, h2, hmc]

/-! C7: reserve-strategy capacity round trip. -/

/-- C7: under `capacityStrategy = reserve` with `maxCapacity` defined,
dispatch records `reservedCapacity = capacity` on the task and adds exactly
`capacity` to `usedCapacity`; the subsequent resource release of that task
restores `usedCapacity` to its pre-dispatch value. -/
theorem c7_reserve_roundtrip (s : LimiterState) (t : Task) (now : ℕ) (m : ℚ)
    (hm : s.options.maxCapacity = some m)
    (hstrat : s.options.capacityStrategy = CapacityStrategy.reserve)
    (hused : 0 ≤ s.usedCapacity) :
    ∃ t', (dispatchTask s t now).executingTasks = s.executingTasks ++ [t'] ∧
      t'.reservedCapacity = t.capacity ∧
      (dispatchTask s t now).usedCapacity = s.usedCapacity + t.capacity ∧
      (releaseTaskResources (dispatchTask s t now) t').1.usedCapacity = s.usedCapacity := by
  have hres : (reservedTask s t).capacity = t.capacity ∧
      (reservedTask s t).reservedCapacity = t.capacity ∧
      (reservedTask s t).reservedConcurrent = 1 ∧
      (reservedTask s t).params = t.params := by
    simp only [reservedTask, hm, hstrat, if_pos]
    by_cases hq : t.hasQueueWaitingTimer <;> simp [hq]
  refine ⟨armExecutionTimer s.options (reservedTask s t) now, ?_, ?_, ?_, ?_⟩
  · simp [dispatchTask, executeTask, hm]
  · by_cases he : natTruthy ((reservedTask s t).params.executionTimeout.or s.options.executionTimeout) <;>
      simp [armExecutionTimer, he, hres.2.1]
  · simp [dispatchTask, executeTask, hm, hres.1]
  · have harm : (armExecutionTimer s.options (reservedTask s t) now).reservedCapacity = t.capacity ∧
        (armExecutionTimer s.options (reservedTask s t) now).reservedConcurrent = 1 := by
      by_cases he : natTruthy ((reservedTask s t).params.executionTimeout.or s.options.executionTimeout) <;>
        simp [armExecutionTimer, he, hres.2.1, hres.2.2.1]
    have hu : (dispatchTask s t now).usedCapacity = s.usedCapacity + t.capacity := by
      simp [dispatchTask, executeTask, hm, hres.1]
    have hopts : (dispatchTask s t now).options = s.options := by
      simp [dispatchTask, executeTask, hm]
    have hrel := releaseTaskResources_usedCapacity (dispatchTask s t now)
      (armExecutionTimer s.options (reservedTask s t) now) (by simp [hopts, hm])
    rw [hrel, harm.1, hu]
    by_cases hc : t.capacity = 0
    · simp [hc]
    · simp [hc, add_sub_cancel_right, max_eq_right hused]

/-- C7 witness state: capacity limiter with `maxCapacity` 10 and 2 in use. -/
def c7State : LimiterState :=
  { usedCapacity := 2, options := mergeDefaults { maxCapacity := some 10 },
    originalOptions := { maxCapacity := some 10 } }

/-- C7 witness task of capacity 4. -/
def c7Task : Task := { id := 3, priority := 5, capacity := 4, timeAdded := 0 }

/-- Witness for C7 at a concrete state: dispatch reserves 4 on top of 2 and
the release restores 2. -/
theorem c7_reserve_roundtrip_witness :
    (0 : ℚ) ≤ c7State.usedCapacity ∧
    ∃ t', (dispatchTask c7State c7Task 0).executingTasks = c7State.executingTasks ++ [t'] ∧
      t'.reservedCapacity = c7Task.capacity ∧
      (dispatchTask c7State c7Task 0).usedCapacity = c7State.usedCapacity + c7Task.capacity ∧
      (releaseTaskResources (dispatchTask c7State c7Task 0) t').1.usedCapacity =
        c7State.usedCapacity :=
  ⟨by norm_num [c7State],
   c7_reserve_roundtrip c7State c7Task 0 10 rfl rfl (by norm_num [c7State])⟩

/-! Frame lemmas: fields that the scheduler loop never writes. -/

/-- Dispatch changes no bookkeeping outside capacity, indices and the
dispatch ledger. -/
theorem dispatchTask_frame (s : LimiterState) (t : Task) (now : ℕ) :
    (dispatchTask s t now).retryTimers = s.retryTimers ∧
    (dispatchTask s t now).channels = s.channels ∧
    (dispatchTask s t now).options = s.options ∧
    (dispatchTask s t now).stopped = s.stopped ∧
    (dispatchTask s t now).nextStopGen = s.nextStopGen ∧
    (dispatchTask s t now).resolverCreatedLog = s.resolverCreatedLog ∧
    (dispatchTask s t now).pendingHooks = s.pendingHooks := by
  unfold dispatchTask executeTask
  cases hm : s.options.maxCapacity <;> simp [hm]

/-- Disabling the release-rule timers changes only the timer bookkeeping. -/
theorem disableTimersM_frame (s : LimiterState) :
    (disableTimersM s).retryTimers = s.retryTimers ∧
    (disableTimersM s).channels = s.channels ∧
    (disableTimersM s).options = s.options ∧
    (disableTimersM s).stopped = s.stopped ∧
    (disableTimersM s).nextStopGen = s.nextStopGen ∧
    (disableTimersM s).resolverCreatedLog = s.resolverCreatedLog ∧
    (disableTimersM s).pendingHooks = s.pendingHooks := by
  unfold disableTimersM
  split <;> simp

/-- The scheduler loop never touches retry timers, settled channels, options,
the stop record or the hook queue. -/
theorem startNextGo_frame (now : ℕ) :
    ∀ (fuel : ℕ) (s : LimiterState),
      (startNextGo now fuel s).retryTimers = s.retryTimers ∧
      (startNextGo now fuel s).channels = s.channels ∧
      (startNextGo now fuel s).options = s.options ∧
      (startNextGo now fuel s).stopped = s.stopped ∧
      (startNextGo now fuel s).nextStopGen = s.nextStopGen ∧
      (startNextGo now fuel s).resolverCreatedLog = s.resolverCreatedLog ∧
      (startNextGo now fuel s).pendingHooks = s.pendingHooks
  | 0, s => by simp [startNextGo]
  | fuel + 1, s => by
    rw [startNextGo]
    split
    · split
      · split <;> simp
      · simp
    · split
      · simp
      · split
        · simp
        · rename_i t heq
          have h1 := dispatchTask_frame s t now
          by_cases hq : ((dispatchTask s t now).queue.length == 0) = true
          · have h2 := disableTimersM_frame (dispatchTask s t now)
            simp only [hq, ite_true]
            refine ⟨?_, ?_, ?_, ?_, ?_, ?_, ?_⟩ <;> simp_all
          · have h2 := startNextGo_frame now fuel (dispatchTask s t now)
            simp only [hq, ite_false, Bool.false_eq_true, if_false]
            refine ⟨?_, ?_, ?_, ?_, ?_, ?_, ?_⟩ <;> simp_all

/-- The scheduler loop entry point shares the frame of `startNextGo`. -/
theorem startNextTaskIfPossible_frame (s : LimiterState) (now : ℕ) :
    (startNextTaskIfPossible s now).retryTimers = s.retryTimers ∧
    (startNextTaskIfPossible s now).channels = s.channels ∧
    (startNextTaskIfPossible s now).options = s.options ∧
    (startNextTaskIfPossible s now).stopped = s.stopped ∧
    (startNextTaskIfPossible s now).nextStopGen = s.nextStopGen ∧
    (startNextTaskIfPossible s now).resolverCreatedLog = s.resolverCreatedLog ∧
    (startNextTaskIfPossible s now).pendingHooks = s.pendingHooks :=
  startNextGo_frame now (s.queue.length + 1) s

/-- Releasing a task's resources touches neither the channels, the retry
timers, the options, nor the task's identity, params, attempt counter or
capacity. -/
theorem releaseTaskResources_frame (s : LimiterState) (t : Task) :
    (releaseTaskResources s t).1.channels = s.channels ∧
    (releaseTaskResources s t).1.retryTimers = s.retryTimers ∧
    (releaseTaskResources s t).1.options = s.options ∧
    (releaseTaskResources s t).1.pendingHooks = s.pendingHooks ∧
    (releaseTaskResources s t).2.params = t.params ∧
    (releaseTaskResources s t).2.id = t.id ∧
    (releaseTaskResources s t).2.retryAttempt = t.retryAttempt ∧
    (releaseTaskResources s t).2.capacity = t.capacity := by
  unfold releaseTaskResources
  by_cases h1 : t.reservedConcurrent = 0 <;> by_cases h2 : t.reservedCapacity = 0 <;>
    by_cases h3 : t.hasExecutionTimer <;> simp [h1, h2, h3] <;> split <;> simp

/-- Settling a channel changes nothing but the channel ledger. -/
theorem settleChannel_frame (s : LimiterState) (tid : ℕ) (out : ChannelOutcome) :
    (settleChannel s tid out).retryTimers = s.retryTimers ∧
    (settleChannel s tid out).queue = s.queue ∧
    (settleChannel s tid out).options = s.options ∧
    (settleChannel s tid out).usedCapacity = s.usedCapacity ∧
    (settleChannel s tid out).usedConcurrent = s.usedConcurrent ∧
    (settleChannel s tid out).executingTasks = s.executingTasks ∧
    (settleChannel s tid out).stopped = s.stopped := by
  unfold settleChannel
  split <;> simp

/-! C2: `stop({stopTaskRetries: true})`. -/

/-- C2 (the code bug, proved as the code behaves): calling `stop` with only
`stopTaskRetries` set leaves every retry timer armed and every channel
unsettled, because the guard on the rejection block (line 890) tests
`stopWaitingTasks` twice and never `stopTaskRetries`. -/
theorem c2_stop_task_retries_ignored (s : LimiterState) (now : ℕ) :
    (stopCall s (some { stopTaskRetries := true }) now).retryTimers = s.retryTimers ∧
    (stopCall s (some { stopTaskRetries := true }) now).channels = s.channels := by
  have hframe := startNextTaskIfPossible_frame
    { s with stopped := some { gen := s.nextStopGen, hasResolver := true }
             nextStopGen := s.nextStopGen + 1
             resolverCreatedLog := s.resolverCreatedLog ++ [s.nextStopGen] } now
  simp only [stopCall]
  by_cases hq : 0 < s.queue.length <;>
    simp [hq, hframe.1, hframe.2.1]

/-! C8: stopping an already-stopped scheduler. -/

/-- C8 options: capacity full so the scheduled task stays queued. -/
def c8Options : Options := { maxCapacity := some 10, initiallyUsedCapacity := some 10 }

/-- C8 queued task. -/
def c8Task : Task := { id := 1, priority := 5, capacity := 5, timeAdded := 0 }

/-- C8 run: queue a task, stop twice, free capacity so the task runs and the
queue drains, then complete it. -/
def c8Ops : List Op :=
  [.opSchedule c8Task 0, .opStop none 1, .opStop none 2,
   .opAdjustUsedCapacity (-10) 3, .opComplete 1 4]

/-- C8 (the code bug, proved as the code behaves): both stop calls install a
resolver (generations 1 and 2), but when the queue drains only the second
stop's resolver is invoked — `this.stopped = {}` in the second call orphans
the first stop's resolver, so the promise returned by the first `stop()` never
settles even though every task has finished. -/
theorem c8_double_stop_orphans_first_resolver :
    (runFrom c8Options 0 c8Ops).map
      (fun s => (s.resolverCreatedLog, s.resolverResolvedLog, s.channels)) =
      some ([1, 2], [2], [(1, .success)]) ∧
    (1 : ℕ) ∉ [2] := by
  refine ⟨?_, by norm_num⟩
  norm_num [c8Ops, runFrom, construct, mergeDefaults, checkMaxCapacity, checkUsedCapacity,
    checkCapacityStrategy, checkReleaseRules, setRules, runOps, step, freshTask, taskIdUsed,
    scheduleTask, handleQueueOverflow, natTruthy, enableTimersM, applyMissedRules,
    missedResetPass, missedReducePass, startNextTaskIfPossible, startNextGo,
    maxConcurrentSaturated, selectTaskToExecute, DoubleLinkedList.pickFirstMatching,
    DoubleLinkedList.putAfter, DoubleLinkedList.putBefore, canFitTask, dispatchTask,
    reservedTask, armExecutionTimer, executeTask, deleteTask, settleChannel,
    removeTaskFromQueues, disableTimersM, findExecuting, removeExecuting, resolveTask,
    releaseTaskResources, adjustUsedCapacityCall, stopCall, c8Options, c8Task,
    List.eraseP, Option.or, maxPriority, Bool.cond_eq_ite, beq_iff_eq, cond_true, cond_false]

/-! C1: engine-initiated failures and the fail-recovery strategy. -/

/-- C1 options: execution timeout 100 ms and the `'retry'` strategy. -/
def c1Options : Options :=
  { maxCapacity := some 10, executionTimeout := some 100,
    failRecoveryStrategy := some .strategyRetry }

/-- C1 task. -/
def c1Task : Task := { id := 1, priority := 5, capacity := 1, timeAdded := 0 }

/-- C1 run: schedule the task (it dispatches immediately and arms the
execution timer for t=100), then the execution timer fires. -/
def c1Ops : List Op := [.opSchedule c1Task 0, .opExecTimeout 1 100]

/-- C1 counterexample: when the execution timer fires with a retry strategy
configured, the channel is NOT settled with `execution-timeout` (the channel
ledger stays empty) and a retry IS scheduled (a retry timer for
t = 100 + 1000 appears): `tryRejectTask` routes `execution-timeout` through
the fail-recovery strategy like any other failure. -/
theorem c1_counterexample :
    (runFrom c1Options 0 c1Ops).map
      (fun s => (s.channels, s.retryTimers.map fun p => (p.1.id, p.2))) =
      some ([], [(1, 1100)]) := by
  norm_num [c1Ops, runFrom, construct, mergeDefaults, checkMaxCapacity, checkUsedCapacity,
    checkCapacityStrategy, checkReleaseRules, setRules, runOps, step, freshTask, taskIdUsed,
    scheduleTask, handleQueueOverflow, natTruthy, enableTimersM, applyMissedRules,
    missedResetPass, missedReducePass, startNextTaskIfPossible, startNextGo,
    maxConcurrentSaturated, selectTaskToExecute, DoubleLinkedList.pickFirstMatching,
    DoubleLinkedList.putAfter, DoubleLinkedList.putBefore, canFitTask, dispatchTask,
    reservedTask, armExecutionTimer, executeTask, deleteTask, settleChannel,
    removeTaskFromQueues, disableTimersM, findExecuting, removeExecuting, resolveTask,
    releaseTaskResources, tryRejectTask, useStrategyRetry, setRetryTimer,
    calculateRetryTimeout, defaultRetriesLimit, c1Options, c1Task,
    List.eraseP, Option.or, maxPriority, Bool.cond_eq_ite, beq_iff_eq, cond_true, cond_false,
    Int.toNat_ofNat, round_ofNat]
  try omega

/-- C1 (amended): `queue-size-exceeded`, `queue-timeout` and `stopped` are
delivered to the result channel as typed errors without consulting the
fail-recovery strategy; `max-capacity-exceeded` (throw-error strategy) is
thrown synchronously and never reaches the channel; `execution-timeout`,
however, goes through `tryRejectTask` and hence through the fail-recovery
strategy: with no strategy (or `'none'`) the channel settles with the typed
`execution-timeout` error, while with a configured retry strategy no channel
settlement happens and a retry is scheduled instead. -/
theorem c1_amended_engine_failures :
    (∀ (s : LimiterState) (tid now : ℕ) (s' : LimiterState),
      step s (.opQueueTimeout tid now) = some s' →
      s'.retryTimers = s.retryTimers ∧
      ((s.channels.any fun e => e.1 == tid) = false →
        s'.channels = s.channels ++ [(tid, .failure (.engine .queueTimeout))])) ∧
    (∀ (s : LimiterState) (t : Task) (now : ℕ), s.stopped.isSome = true →
      scheduleTask s t now = .ok (settleChannel s t.id (.failure (.engine .limiterStopped)))) ∧
    (∀ (s : LimiterState) (t : Task) (now : ℕ),
      s.stopped = none → s.options.maxCapacity = none →
      ¬t.capacity < 0 → ¬(t.priority < 0 ∨ maxPriority < t.priority) →
      natTruthy s.options.maxQueueSize = true →
      s.options.maxQueueSize.getD 0 ≤ s.queue.length →
      s.options.queueSizeExceededStrategy = .throwError →
      scheduleTask s t now = .ok (settleChannel s t.id (.failure (.engine .queueSizeExceeded)))) ∧
    (∀ (s : LimiterState) (t : Task) (now : ℕ) (m : ℚ),
      s.stopped = none → s.options.maxCapacity = some m → m < t.capacity →
      s.options.taskExceedsMaxCapacityStrategy = .throwError →
      scheduleTask s t now = .error .maxCapacityExceeded) ∧
    (∀ (s : LimiterState) (t : Task) (now : ℕ),
      (t.params.failRecoveryStrategy.or s.options.failRecoveryStrategy = none ∨
       t.params.failRecoveryStrategy.or s.options.failRecoveryStrategy = some .strategyNone) →
      (tryRejectTask s t (.engine .executionTimeout) now).retryTimers = s.retryTimers ∧
      ((s.channels.any fun e => e.1 == t.id) = false →
        (tryRejectTask s t (.engine .executionTimeout) now).channels =
          s.channels ++ [(t.id, .failure (.engine .executionTimeout))])) ∧
    (∀ (s : LimiterState) (t : Task) (now : ℕ) (o : RetryOptions),
      t.params.failRecoveryStrategy.or s.options.failRecoveryStrategy =
        some (.strategyRetryWith o) →
      t.retryAttempt + 1 ≤ o.retries.getD defaultRetriesLimit →
      (tryRejectTask s t (.engine .executionTimeout) now).channels = s.channels ∧
      ∃ t', (tryRejectTask s t (.engine .executionTimeout) now).retryTimers =
        s.retryTimers ++ [(t', now + calculateRetryTimeout (t.retryAttempt + 1) o)]) := by
  refine ⟨?_, ?_, ?_, ?_, ?_, ?_⟩
  · intro s tid now s' hstep
    simp only [step] at hstep
    cases hfind : s.queue.find? fun t => t.id == tid with
    | none => rw [hfind] at hstep; exact absurd hstep (by simp)
    | some t =>
      rw [hfind] at hstep
      have hid : t.id = tid := by
        have := List.find?_some hfind
        simpa using this
      have hstep' : (if (t.hasQueueWaitingTimer &&
          decide (t.queueWaitingDeadline.getD 0 ≤ now)) = true then
          some (settleChannel (removeTaskFromQueues s t) t.id
            (.failure (.engine .queueTimeout)))
        else none) = some s' := hstep
      by_cases hguard : (t.hasQueueWaitingTimer && decide (t.queueWaitingDeadline.getD 0 ≤ now)) = true
      · rw [if_pos hguard] at hstep'
        simp only [Option.some.injEq] at hstep'
        subst hstep'
        refine ⟨by
          rw [(settleChannel_frame _ _ _).1]
          rfl, fun hany => ?_⟩
        simp only [settleChannel, removeTaskFromQueues, hid]
        rw [if_neg (by simp [hany])]
      · rw [if_neg hguard] at hstep'
        exact absurd hstep' (by simp)
  · intro s t now hstop
    simp only [scheduleTask, hstop, if_pos]
  · intro s t now hstop hmc hcap hprio hmq hlen hstrat
    simp only [scheduleTask, hstop, hmc, Option.isSome_none, Bool.false_eq_true,
      if_false, hcap, hprio, handleQueueOverflow, hmq, hstrat,
      decide_eq_true_eq, hlen, if_true, Bool.true_and, if_pos]
    simp [hlen]
  · intro s t now m hstop hmc hlt hstrat
    simp only [scheduleTask, hstop, hmc, hlt, hstrat, Option.isSome_none,
      Bool.false_eq_true, if_false, if_pos, if_true]
  · intro s t now hstrat
    obtain ⟨hch, hrt, hopt, hph, hpar, hid, hatt, hcap⟩ := releaseTaskResources_frame s t
    have hstrat' : (releaseTaskResources s t).2.params.failRecoveryStrategy.or
        (releaseTaskResources s t).1.options.failRecoveryStrategy =
        t.params.failRecoveryStrategy.or s.options.failRecoveryStrategy := by
      rw [hpar, hopt]
    have hframe := fun s2 => startNextTaskIfPossible_frame s2 now
    have hkey : tryRejectTask s t (.engine .executionTimeout) now =
        startNextTaskIfPossible
          (settleChannel (releaseTaskResources s t).1 (releaseTaskResources s t).2.id
            (.failure (.engine .executionTimeout))) now := by
      rcases hstrat with h | h <;> · simp only [tryRejectTask, hstrat', h]
    rw [hkey]
    constructor
    · rw [(hframe _).1, (settleChannel_frame _ _ _).1, hrt]
    · intro hany
      rw [(hframe _).2.1]
      simp only [settleChannel, hch, hid]
      rw [if_neg (by simp [hany])]
  · intro s t now o hstrat hatt'
    obtain ⟨hch, hrt, hopt, hph, hpar, hid, hatt, hcap⟩ := releaseTaskResources_frame s t
    have hstrat' : (releaseTaskResources s t).2.params.failRecoveryStrategy.or
        (releaseTaskResources s t).1.options.failRecoveryStrategy =
        t.params.failRecoveryStrategy.or s.options.failRecoveryStrategy := by
      rw [hpar, hopt]
    have hframe := fun s2 => startNextTaskIfPossible_frame s2 now
    have hkey : tryRejectTask s t (.engine .executionTimeout) now =
        startNextTaskIfPossible
          (useStrategyRetry (releaseTaskResources s t).1
            { (releaseTaskResources s t).2 with
                retryAttempt := (releaseTaskResources s t).2.retryAttempt + 1 }
            o (.engine .executionTimeout) now) now := by
      simp only [tryRejectTask, hstrat', hstrat]
    have hkey2 : useStrategyRetry (releaseTaskResources s t).1
        { (releaseTaskResources s t).2 with
            retryAttempt := (releaseTaskResources s t).2.retryAttempt + 1 }
        o (.engine .executionTimeout) now =
        setRetryTimer (releaseTaskResources s t).1
          { (releaseTaskResources s t).2 with
              retryAttempt := (releaseTaskResources s t).2.retryAttempt + 1 }
          (calculateRetryTimeout ((releaseTaskResources s t).2.retryAttempt + 1) o) now := by
      unfold useStrategyRetry
      rw [if_neg]
      simp only [hatt]
      omega
    rw [hkey, hkey2]
    constructor
    · rw [(hframe _).2.1]
      simp [setRetryTimer, hch]
    · refine ⟨{ (releaseTaskResources s t).2 with
          retryAttempt := (releaseTaskResources s t).2.retryAttempt + 1
          timeLimit := some (now +
            calculateRetryTimeout ((releaseTaskResources s t).2.retryAttempt + 1) o) }, ?_⟩
      rw [(hframe _).1]
      simp [setRetryTimer, hrt, hatt]

/-- C1 witness state: a stopped scheduler. -/
def c1WitStopped : LimiterState :=
  { options := mergeDefaults {}, originalOptions := {}, stopped := some { gen := 1 } }

/-- C1 witness state: no fail-recovery strategy configured. -/
def c1WitNone : LimiterState :=
  { options := mergeDefaults {}, originalOptions := {} }

/-- C1 witness state: a retry strategy with default options configured. -/
def c1WitRetry : LimiterState :=
  { options := mergeDefaults { failRecoveryStrategy := some (.strategyRetryWith {}) },
    originalOptions := { failRecoveryStrategy := some (.strategyRetryWith {}) } }

/-- Witness for the amended C1 theorem: a stopped scheduler settles the
channel with `stopped` directly; an execution timeout with no strategy
settles the channel with `execution-timeout`; an execution timeout with a
retry strategy leaves the channel untouched. -/
theorem c1_amended_engine_failures_witness :
    scheduleTask c1WitStopped c1Task 5 =
      .ok (settleChannel c1WitStopped c1Task.id (.failure (.engine .limiterStopped))) ∧
    (tryRejectTask c1WitNone c1Task (.engine .executionTimeout) 7).channels =
      c1WitNone.channels ++ [(c1Task.id, .failure (.engine .executionTimeout))] ∧
    (tryRejectTask c1WitRetry c1Task (.engine .executionTimeout) 7).channels =
      c1WitRetry.channels :=
  ⟨c1_amended_engine_failures.2.1 c1WitStopped c1Task 5 rfl,
   (c1_amended_engine_failures.2.2.2.2.1 c1WitNone c1Task 7 (Or.inl rfl)).2 rfl,
   (c1_amended_engine_failures.2.2.2.2.2 c1WitRetry c1Task 7 {} rfl
     (by norm_num [defaultRetriesLimit, c1Task])).1⟩

/-! C10: retry re-admission carries an already-elapsed time limit and takes
the promoted path. -/

/-- C10 (three linked facts):
(a) when a failed task is handed to the retry strategy, the task recorded in
the retry timer carries `timeLimit = failure time + retry timeout`, which is
exactly the timer's fire moment;
(b) re-admission of a task whose `timeLimit` is already (truthily) set skips
the `queueWaitingLimit` assignment and the queue-waiting timer (retry tasks
have `retryAttempt ≠ 0`), and inserts the task unchanged into the queue,
`tasksByTimeAdded` and `tasksByTimeLimit`;
(c) while some pending task in `tasksByTimeLimit` has `timeLimit ≤ now`
(e.g. a re-admitted retry task, whose deadline is its fire moment and hence
already elapsed), the selection never returns an ordinary task: it returns a
time-limited task with an elapsed deadline or nothing; and when the
re-admitted task is the head of `tasksByTimeLimit` and fits, it is selected
regardless of every other task's priority. -/
theorem c10_retry_readmission :
    (∀ (s : LimiterState) (t : Task) (now : ℕ) (o : RetryOptions) (err : TaskError),
      t.params.failRecoveryStrategy.or s.options.failRecoveryStrategy =
        some (.strategyRetryWith o) →
      t.retryAttempt + 1 ≤ o.retries.getD defaultRetriesLimit →
      ∃ t', (tryRejectTask s t err now).retryTimers =
          s.retryTimers ++ [(t', now + calculateRetryTimeout (t.retryAttempt + 1) o)] ∧
        t'.timeLimit = some (now + calculateRetryTimeout (t.retryAttempt + 1) o) ∧
        t'.retryAttempt = t.retryAttempt + 1 ∧ t'.id = t.id ∧ t'.params = t.params) ∧
    (∀ (s : LimiterState) (t : Task) (now : ℕ),
      s.stopped = none → s.options.maxCapacity = none →
      ¬t.capacity < 0 → ¬(t.priority < 0 ∨ maxPriority < t.priority) →
      natTruthy s.options.maxQueueSize = false →
      natTruthy t.timeLimit = true → t.retryAttempt ≠ 0 →
      scheduleTask s t now = .ok (startNextTaskIfPossible (enableTimersM
        { s with
            queue := DoubleLinkedList.putAfter (fun e => e.priority ≤ t.priority) t s.queue
            tasksByTimeAdded := s.tasksByTimeAdded ++ [t]
            tasksByTimeLimit := DoubleLinkedList.putBefore
              (fun e => decide (t.timeLimit.getD 0 < e.timeLimit.getD 0)) t
              s.tasksByTimeLimit } now) now)) ∧
    (∀ (s : LimiterState) (now : ℕ) (u : Task) (tl : ℕ),
      u ∈ s.tasksByTimeLimit → u.timeLimit = some tl → tl ≤ now →
      (∀ x ∈ s.tasksByTimeLimit, x.timeLimit.isSome = true) →
      List.Pairwise (fun a b => a.timeLimit.getD 0 ≤ b.timeLimit.getD 0) s.tasksByTimeLimit →
      ((∃ h, selectTaskToExecute s now = some h ∧ h ∈ s.tasksByTimeLimit ∧
          h.timeLimit.getD 0 ≤ now) ∨ selectTaskToExecute s now = none) ∧
      (s.tasksByTimeLimit.head? = some u → canFitTask s u = true →
        selectTaskToExecute s now = some u)) := by
  refine ⟨?_, ?_, ?_⟩
  · intro s t now o err hstrat hatt'
    obtain ⟨hch, hrt, hopt, hph, hpar, hid, hatt, hcap⟩ := releaseTaskResources_frame s t
    have hstrat' : (releaseTaskResources s t).2.params.failRecoveryStrategy.or
        (releaseTaskResources s t).1.options.failRecoveryStrategy =
        t.params.failRecoveryStrategy.or s.options.failRecoveryStrategy := by
      rw [hpar, hopt]
    have hframe := fun s2 => startNextTaskIfPossible_frame s2 now
    have hkey : tryRejectTask s t err now =
        startNextTaskIfPossible
          (useStrategyRetry (releaseTaskResources s t).1
            { (releaseTaskResources s t).2 with
                retryAttempt := (releaseTaskResources s t).2.retryAttempt + 1 }
            o err now) now := by
      simp only [tryRejectTask, hstrat', hstrat]
    have hkey2 : useStrategyRetry (releaseTaskResources s t).1
        { (releaseTaskResources s t).2 with
            retryAttempt := (releaseTaskResources s t).2.retryAttempt + 1 }
        o err now =
        setRetryTimer (releaseTaskResources s t).1
          { (releaseTaskResources s t).2 with
              retryAttempt := (releaseTaskResources s t).2.retryAttempt + 1 }
          (calculateRetryTimeout ((releaseTaskResources s t).2.retryAttempt + 1) o) now := by
      unfold useStrategyRetry
      rw [if_neg]
      simp only [hatt]
      omega
    rw [hkey, hkey2]
    refine ⟨{ (releaseTaskResources s t).2 with
        retryAttempt := (releaseTaskResources s t).2.retryAttempt + 1
        timeLimit := some (now +
          calculateRetryTimeout ((releaseTaskResources s t).2.retryAttempt + 1) o) },
      ?_, by simp [hatt], by simp [hatt], by simp [hid], by simp [hpar]⟩
    rw [(hframe _).1]
    simp [setRetryTimer, hrt, hatt]
  · intro s t now hstop hmc hcap hprio hmq htl hretry
    simp only [scheduleTask, hstop, hmc, Option.isSome_none, Bool.false_eq_true, if_false,
      hcap, hprio, handleQueueOverflow, hmq, htl, Bool.not_true, Bool.false_and,
      Bool.and_false, if_true, if_false, ite_false, ite_true, Bool.not_eq_true]
    have hr : (t.retryAttempt == 0) = false := by simpa using hretry
    simp [hr, htl]
  · intro s now u tl humem htl hnow hall hsorted
    cases hl : s.tasksByTimeLimit with
    | nil => rw [hl] at humem; exact absurd humem (by simp)
    | cons h rest =>
      have hhead : s.tasksByTimeLimit.head? = some h := by rw [hl]; rfl
      have hsome : h.timeLimit.isSome = true := hall h (by rw [hl]; simp)
      obtain ⟨tlh, htlh⟩ := Option.isSome_iff_exists.mp hsome
      have htlh_le : tlh ≤ now := by
        rcases List.mem_cons.mp (by rw [hl] at humem; exact humem) with rfl | humem'
        · rw [htl] at htlh
          simp only [Option.some.injEq] at htlh
          omega
        · rw [hl] at hsorted
          have hrel := (List.pairwise_cons.mp hsorted).1 u humem'
          rw [htlh, htl] at hrel
          simp only [Option.getD_some] at hrel
          omega
      constructor
      · by_cases hfit : canFitTask s h = true
        · refine Or.inl ⟨h, ?_, List.mem_cons_self h rest,
            by rw [htlh]; simpa using htlh_le⟩
          simp only [selectTaskToExecute, hhead, htlh, htlh_le, if_pos, hfit, if_true]
        · refine Or.inr ?_
          have hfit' : canFitTask s h = false := by simpa using hfit
          simp only [selectTaskToExecute, hhead, htlh, htlh_le, if_pos, hfit',
            Bool.false_eq_true, if_false]
      · intro huhead hufit
        have : h = u := by simpa using huhead
        subst this
        simp only [selectTaskToExecute, hhead, htl, hnow, if_pos, hufit, if_true]

/-- C10 witness task: a retry re-admission (attempt 1) carrying the elapsed
deadline 1100. -/
def c10Task : Task :=
  { id := 4, priority := 9, capacity := 1, timeAdded := 0, timeLimit := some 1100,
    retryAttempt := 1 }

/-- C10 witness scheduler with no limits configured. -/
def c10State : LimiterState := { options := mergeDefaults {}, originalOptions := {} }

/-- C10 witness scheduler for the selection conjunct. -/
def c10SelState : LimiterState :=
  { usedCapacity := 0, options := mergeDefaults { maxCapacity := some 10 },
    originalOptions := { maxCapacity := some 10 },
    queue := [c10Task], tasksByTimeLimit := [c10Task] }

/-- Witness for C10 at concrete inputs: the retry timer records the fire
moment as the task's time limit; re-admission inserts the task unchanged; the
aged head is selected. -/
theorem c10_retry_readmission_witness :
    (∃ t', (tryRejectTask c1WitRetry c1Task (.user 0) 7).retryTimers =
        c1WitRetry.retryTimers ++
          [(t', 7 + calculateRetryTimeout (c1Task.retryAttempt + 1) {})] ∧
      t'.timeLimit = some (7 + calculateRetryTimeout (c1Task.retryAttempt + 1) {}) ∧
      t'.retryAttempt = c1Task.retryAttempt + 1 ∧ t'.id = c1Task.id ∧
      t'.params = c1Task.params) ∧
    scheduleTask c10State c10Task 1100 = .ok (startNextTaskIfPossible (enableTimersM
      { c10State with
          queue := DoubleLinkedList.putAfter (fun e => e.priority ≤ c10Task.priority) c10Task
            c10State.queue
          tasksByTimeAdded := c10State.tasksByTimeAdded ++ [c10Task]
          tasksByTimeLimit := DoubleLinkedList.putBefore
            (fun e => decide (c10Task.timeLimit.getD 0 < e.timeLimit.getD 0)) c10Task
            c10State.tasksByTimeLimit } 1100) 1100) ∧
    selectTaskToExecute c10SelState 1200 = some c10Task :=
  ⟨c10_retry_readmission.1 c1WitRetry c1Task 7 {} (.user 0) rfl
      (by norm_num [defaultRetriesLimit, c1Task]),
   c10_retry_readmission.2.1 c10State c10Task 1100 rfl rfl
      (by norm_num [c10Task]) (by norm_num [c10Task, maxPriority]) rfl rfl
      (by norm_num [c10Task]),
   (c10_retry_readmission.2.2 c10SelState 1200 c10Task 1100 (by simp [c10SelState]) rfl
      (by norm_num)
      (by simp [c10SelState, c10Task])
      (by simp [c10SelState])).2 rfl
      (by norm_num [canFitTask, c10SelState, mergeDefaults, c10Task])⟩

/-! C9: `minDelayBetweenTasks`.  The option is documented in the package
README and exercised by the test suite, but the implementation file in the
provided sources neither declares nor reads it; the validation row and the
dispatch gap are therefore modelled from the spec, and a separate conjunct
records that the implemented constructor ignores the field entirely. -/

/-- Modelled from the spec: the missing `minDelayBetweenTasks` validation row
of §4.8 — `minDelayBetweenTasks < 0` fails with `invalid-argument`,
non-negative values are accepted. -/
def checkMinDelayBetweenTasks (v : Option ℚ) : Option ErrorType :=
  match v with
  | none => none
  | some d => if d < 0 then some .invalidArgument else none

/-- Modelled from the spec: construction with the `minDelayBetweenTasks`
validation applied alongside the implemented checks. -/
def constructModelled (o : Options) (now : ℕ) : Except ErrorType LimiterState :=
  match checkMinDelayBetweenTasks o.minDelayBetweenTasks with
  | some e => .error e
  | none => construct o now

/-- Modelled from the spec: the dispatch gate enforcing a minimum wall-time
gap — a dispatch at `now` is admitted only when at least `minDelay` ms have
passed since the previous dispatch. -/
def minDelayGate (minDelay : ℕ) (lastDispatch : Option ℕ) (now : ℕ) : Bool :=
  match lastDispatch with
  | none => true
  | some t => t + minDelay ≤ now

/-- Modelled from the spec: the dispatch times admitted by the gate over a
stream of dispatch attempts. -/
def minDelayRun (minDelay : ℕ) : List ℕ → Option ℕ → List ℕ
  | [], _ => []
  | now :: rest, last =>
    if minDelayGate minDelay last now then now :: minDelayRun minDelay rest (some now)
    else minDelayRun minDelay rest last

/-- Gap lemma for the modelled gate: admitted dispatch times are separated by
at least the minimum delay, and are bounded below by the recorded last
dispatch plus the delay. -/
theorem minDelayRun_gap (d : ℕ) :
    ∀ (l : List ℕ) (last : Option ℕ),
      List.Chain' (fun a b => a + d ≤ b) (minDelayRun d l last) ∧
      ∀ x ∈ minDelayRun d l last, ∀ t, last = some t → t + d ≤ x
  | [], _ => ⟨by simp [minDelayRun], by simp [minDelayRun]⟩
  | now :: rest, last => by
    by_cases hgate : minDelayGate d last now = true
    · obtain ⟨ihchain, ihbound⟩ := minDelayRun_gap d rest (some now)
      have hout : minDelayRun d (now :: rest) last =
          now :: minDelayRun d rest (some now) := by
        simp [minDelayRun, hgate]
      rw [hout]
      constructor
      · refine List.chain'_cons'.mpr ⟨?_, ihchain⟩
        intro b hb
        exact ihbound b (List.mem_of_mem_head? hb) now rfl
      · intro x hx t hlast
        have hgap : t + d ≤ now := by
          subst hlast
          simpa [minDelayGate] using hgate
        rcases List.mem_cons.mp hx with rfl | hx'
        · exact hgap
        · have := ihbound x hx' now rfl
          omega
    · obtain ⟨ihchain, ihbound⟩ := minDelayRun_gap d rest last
      have hout : minDelayRun d (now :: rest) last = minDelayRun d rest last := by
        simp [minDelayRun, hgate]
      rw [hout]
      exact ⟨ihchain, ihbound⟩

/-- C9: a negative `minDelayBetweenTasks` fails construction with
`invalid-argument`; non-negative values are accepted (the modelled
construction coincides with the implemented one); the implemented constructor
itself ignores the field entirely (the feature is absent from the provided
implementation sources); and the modelled dispatch gate enforces the minimum
wall-time gap between successive admitted dispatches. -/
theorem c9_min_delay_between_tasks :
    (∀ (o : Options) (d : ℚ) (now : ℕ), o.minDelayBetweenTasks = some d → d < 0 →
      constructModelled o now = .error .invalidArgument) ∧
    (∀ (o : Options) (now : ℕ), (∀ d, o.minDelayBetweenTasks = some d → 0 ≤ d) →
      constructModelled o now = construct o now) ∧
    (∀ (o : Options) (v : Option ℚ) (now : ℕ),
      construct { o with minDelayBetweenTasks := v } now =
        (construct o now).map fun s =>
          { s with originalOptions := { o with minDelayBetweenTasks := v } }) ∧
    (∀ (minDelay : ℕ) (l : List ℕ),
      List.Chain' (fun a b => a + minDelay ≤ b) (minDelayRun minDelay l none)) := by
  refine ⟨?_, ?_, ?_, ?_⟩
  · intro o d now hd hneg
    simp [constructModelled, checkMinDelayBetweenTasks, hd, hneg]
  · intro o now hnn
    cases hd : o.minDelayBetweenTasks with
    | none => simp [constructModelled, checkMinDelayBetweenTasks, hd]
    | some d =>
      have : ¬d < 0 := not_lt.mpr (hnn d hd)
      simp [constructModelled, checkMinDelayBetweenTasks, hd, this]
  · intro o v now
    simp only [construct]
    cases h1 : checkMaxCapacity o.maxCapacity with
    | some e => simp [Except.map]
    | none =>
      cases h2 : checkUsedCapacity o.initiallyUsedCapacity o.maxCapacity with
      | some e => simp [Except.map]
      | none =>
        cases h3 : checkCapacityStrategy o.capacityStrategy o.maxCapacity with
        | some e => simp [Except.map]
        | none =>
          cases h4 : checkReleaseRules o.releaseRules o.maxCapacity with
          | some e => simp [Except.map]
          | none => simp [Except.map, mergeDefaults]
  · intro minDelay l
    exact (minDelayRun_gap minDelay l none).1

/-- Witness for C9: `minDelayBetweenTasks = -5` is rejected by the modelled
construction; `100` is accepted; the gate admits `[0, 100]` out of attempts
at `0, 50, 100, 150` with a 100 ms delay. -/
theorem c9_min_delay_between_tasks_witness :
    constructModelled { minDelayBetweenTasks := some (-5) } 0 =
      .error .invalidArgument ∧
    constructModelled { minDelayBetweenTasks := some 100 } 0 =
      construct { minDelayBetweenTasks := some 100 } 0 ∧
    List.Chain' (fun a b => a + 100 ≤ b) (minDelayRun 100 [0, 50, 100, 150] none) :=
  ⟨c9_min_delay_between_tasks.1 { minDelayBetweenTasks := some (-5) } (-5) 0 rfl
      (by norm_num),
   c9_min_delay_between_tasks.2.1 { minDelayBetweenTasks := some 100 } 0
      (fun d hd => by simp only [Option.some.injEq] at hd; rw [← hd]; norm_num),
   c9_min_delay_between_tasks.2.2.2 100 [0, 50, 100, 150]⟩

/-! C3: the P1 capacity invariant (`usedCapacity ≤ maxCapacity`,
`usedConcurrent ≤ maxConcurrent`). -/

/-- C3 counterexample configuration: `maxCapacity` 10 with a release rule that
resets `usedCapacity` to 20.  Neither the constructor nor `setOptions`
validates a `reset` rule's value against `maxCapacity`. -/
def c3Options : Options :=
  { maxCapacity := some 10, releaseRules := some [.reset (some 20) 100] }

/-- C3 counterexample: from a freshly constructed limiter with `maxCapacity`
10 and the release rule `reset(20, 100)`, a single `getUsedCapacity()` call at
t=100 runs the catch-up routine, which applies the unvalidated reset value:
the resulting quiescent state has `usedCapacity = 20 > maxCapacity = 10`. -/
theorem c3_counterexample :
    (runFrom c3Options 0 [.opGetUsedCapacity 100]).map
      (fun s => (s.usedCapacity, s.options.maxCapacity)) = some (20, some 10) ∧
    ¬((20 : ℚ) ≤ 10) := by
  constructor
  · norm_num [runFrom, construct, mergeDefaults, checkMaxCapacity, checkUsedCapacity,
      checkCapacityStrategy, checkReleaseRules, setRules, runOps, step,
      getUsedCapacityCall, applyMissedRules, missedResetPass, missedReducePass,
      applyRuleToUsed, resetTimeFalsy, c3Options]
  · norm_num

/-- Well-formedness of a release rule relative to `maxCapacity`: a `reset`
value lies in `[0, maxCapacity]`, a `reduce` value is nonnegative.  The code
never validates this (see `c3_counterexample`). -/
def RuleOK (mc : Option ℚ) : ReleaseRule → Prop
  | .reset v _ => 0 ≤ v.getD 0 ∧ ∀ m, mc = some m → v.getD 0 ≤ m
  | .reduce v _ => 0 ≤ v

/-- Nonnegative capacity fields of a task record. -/
def TaskCapOK (t : Task) : Prop := 0 ≤ t.capacity ∧ 0 ≤ t.reservedCapacity

/-- The P1 invariant together with the auxiliary facts needed for its
preservation: used capacity within `[0, maxCapacity]`, used concurrency within
a nonzero `maxConcurrent` (a configured 0 is falsy and imposes no limit),
well-formed installed rules, and nonnegative capacity fields for every task
the scheduler still references. -/
structure InvC3 (s : LimiterState) : Prop where
  used_nonneg : 0 ≤ s.usedCapacity
  max_nonneg : ∀ m, s.options.maxCapacity = some m → 0 ≤ m
  used_le : ∀ m, s.options.maxCapacity = some m → s.usedCapacity ≤ m
  conc_le : ∀ k, s.options.maxConcurrent = some k → 0 < k → s.usedConcurrent ≤ k
  rules_ok : ∀ e ∈ s.releaseTimers, RuleOK s.options.maxCapacity e.1
  queue_ok : ∀ t ∈ s.queue, TaskCapOK t
  tl_ok : ∀ t ∈ s.tasksByTimeLimit, TaskCapOK t
  exec_ok : ∀ t ∈ s.executingTasks, TaskCapOK t
  retry_ok : ∀ p ∈ s.retryTimers, TaskCapOK (Prod.fst p)

/-- The catch-up safety condition: when the reset pass produces a latest reset
catch-up time, it does not exceed the catch-up time of any due `reduce` rule.
When it is violated the signed firing count
`floor((catchUpTime - lastResetTime) / interval)` of a due reduce rule is
negative and the rule *adds* capacity (see C4), which can push `usedCapacity`
above `maxCapacity`. -/
def reduceCountsNonneg (now : ℕ) (entries : List (ReleaseRule × RuleStatus)) : Prop :=
  ∀ l, ((dueResetCatchUps now entries).foldl takeLater (none, none)).1 = some l →
    ∀ v i st, (ReleaseRule.reduce v i, st) ∈ entries →
      ∀ c, catchUpTime now st.lastApplied i = some c → l ≤ c

/-- Side conditions under which a step preserves P1: the operations that can
run the catch-up routine need `reduceCountsNonneg`, and a reconfiguration must
not cut `maxCapacity` below the current `usedCapacity` nor a nonzero
`maxConcurrent` below the current `usedConcurrent`, and must install
well-formed rules. -/
def stepSafe (s : LimiterState) : Op → Prop
  | .opSchedule _ now => reduceCountsNonneg now s.releaseTimers
  | .opRetryFire _ now => reduceCountsNonneg now s.releaseTimers
  | .opGetUsedCapacity now => reduceCountsNonneg now s.releaseTimers
  | .opSetOptions o _ =>
    (∀ m, o.maxCapacity = some m → s.usedCapacity ≤ m) ∧
    (∀ k, o.maxConcurrent = some k → 0 < k → s.usedConcurrent ≤ k) ∧
    (∀ r ∈ o.releaseRules.getD [], RuleOK o.maxCapacity r)
  | _ => True

/-- A due rule's catch-up time lies between its `lastApplied` and `now`. -/
theorem catchUpTime_ge {now la i c : ℕ} (hc : catchUpTime now la i = some c) :
    la ≤ c ∧ c ≤ now := by
  unfold catchUpTime at hc
  split at hc
  · rename_i hdue
    simp only [Option.some.injEq] at hc
    have hle : (now - la) % i ≤ now - la := Nat.mod_le _ _
    omega
  · exact absurd hc (by simp)

/-- Applying a well-formed rule once keeps the used capacity within
`[0, maxCapacity]`. -/
theorem applyRuleToUsed_once_bound (r : ReleaseRule) (used : ℚ) (mc : Option ℚ)
    (hr : RuleOK mc r) (hm : ∀ m, mc = some m → 0 ≤ m)
    (h0 : 0 ≤ used) (hle : ∀ m, mc = some m → used ≤ m) :
    0 ≤ applyRuleToUsed r 1 used ∧ ∀ m, mc = some m → applyRuleToUsed r 1 used ≤ m := by
  cases r with
  | reset v i =>
    obtain ⟨h1, h2⟩ := hr
    exact ⟨h1, h2⟩
  | reduce v i =>
    have hv : 0 ≤ v := hr
    simp only [applyRuleToUsed]
    refine ⟨le_max_left _ _, fun m hmeq => ?_⟩
    have hum := hle m hmeq
    have hm0 := hm m hmeq
    have hsub : used - v * ((1 : ℤ) : ℚ) ≤ m := by push_cast; linarith
    exact max_le hm0 hsub

/-- The winning rule of a `takeLater` fold comes from the accumulator or from
the list. -/
theorem foldl_takeLater_snd_mem :
    ∀ (l : List (ℕ × ReleaseRule)) (acc : Option ℕ × Option ReleaseRule) (r : ReleaseRule),
      (l.foldl takeLater acc).2 = some r → acc.2 = some r ∨ ∃ c, (c, r) ∈ l
  | [], _, r, h => Or.inl h
  | p :: rest, acc, r, h => by
    rcases foldl_takeLater_snd_mem rest (takeLater acc p) r h with h' | ⟨c, hc⟩
    · unfold takeLater at h'
      split at h'
      · have hp : p.2 = r := Option.some.inj h'
        right
        exact ⟨p.1, by rw [← hp]; exact List.mem_cons_self _ _⟩
      · exact Or.inl h'
    · exact Or.inr ⟨c, List.mem_cons_of_mem _ hc⟩

/-- Every pair listed by `dueResetCatchUps` carries a rule configured in the
entries. -/
theorem dueResetCatchUps_mem_fst {now : ℕ} {entries : List (ReleaseRule × RuleStatus)}
    {c : ℕ} {r : ReleaseRule} (h : (c, r) ∈ dueResetCatchUps now entries) :
    ∃ e ∈ entries, e.1 = r := by
  simp only [dueResetCatchUps, List.mem_filterMap] at h
  obtain ⟨⟨r₀, st⟩, he, hm⟩ := h
  cases r₀ with
  | reset v i =>
    have hm' : Option.map (fun c => (c, ReleaseRule.reset v i))
        (catchUpTime now st.lastApplied i) = some (c, r) := hm
    cases hc : catchUpTime now st.lastApplied i with
    | none => rw [hc] at hm'; simp at hm'
    | some c' =>
      rw [hc] at hm'
      simp only [Option.map_some, Option.map_some', Option.some.injEq, Prod.mk.injEq] at hm'
      exact ⟨(ReleaseRule.reset v i, st), he, hm'.2⟩
  | reduce v i => simp at hm

/-- The reset pass's status update keeps each entry's rule. -/
theorem resetPassAdvance_fst (now : ℕ) (e : ReleaseRule × RuleStatus) :
    (resetPassAdvance now e).1 = e.1 := by
  obtain ⟨r, st⟩ := e
  cases r with
  | reset v i => cases hc : catchUpTime now st.lastApplied i <;> simp [resetPassAdvance, hc]
  | reduce v i => rfl

/-- The catch-up advance keeps each entry's rule. -/
theorem advanceDue_fst (now : ℕ) (e : ReleaseRule × RuleStatus) :
    (advanceDue now e).1 = e.1 := by
  unfold advanceDue
  cases hc : catchUpTime now e.2.lastApplied e.1.interval <;> simp

/-- A `reduce` entry of the reset pass's output is a `reduce` entry of its
input, unchanged. -/
theorem reduce_mem_map_resetPassAdvance {now : ℕ} {l : List (ReleaseRule × RuleStatus)}
    {v : ℚ} {i : ℕ} {st : RuleStatus}
    (h : (ReleaseRule.reduce v i, st) ∈ l.map (resetPassAdvance now)) :
    (ReleaseRule.reduce v i, st) ∈ l := by
  simp only [List.mem_map] at h
  obtain ⟨⟨r₀, st₀⟩, he, heq⟩ := h
  cases r₀ with
  | reset v₀ i₀ =>
    cases hc : catchUpTime now st₀.lastApplied i₀ <;>
      simp [resetPassAdvance, hc] at heq
  | reduce v₀ i₀ =>
    simp only [resetPassAdvance, Prod.mk.injEq, ReleaseRule.reduce.injEq] at heq
    obtain ⟨⟨hv, hi⟩, hst⟩ := heq
    subst hv; subst hi; subst hst
    exact he

/-- Under well-formed rules and nonnegative firing counts, the reduce portion
of the catch-up keeps the used capacity within `[0, maxCapacity]`. -/
theorem reduceCatchUpFold_bound (now : ℕ) (lrt : Option ℕ) (mc : Option ℚ)
    (hm : ∀ m, mc = some m → 0 ≤ m) :
    ∀ (l : List (ReleaseRule × RuleStatus)) (used : ℚ),
      (∀ e ∈ l, RuleOK mc e.1) →
      (∀ v i st, (ReleaseRule.reduce v i, st) ∈ l →
        ∀ c, catchUpTime now st.lastApplied i = some c → ∀ x, lrt = some x → x ≤ c) →
      0 ≤ used → (∀ m, mc = some m → used ≤ m) →
      0 ≤ reduceCatchUpFold now lrt l used ∧
      ∀ m, mc = some m → reduceCatchUpFold now lrt l used ≤ m
  | [], used, _, _, h0, hle => ⟨h0, hle⟩
  | (r, st) :: rest, used, hr, hcnt, h0, hle => by
    cases r with
    | reset v i =>
      simp only [reduceCatchUpFold]
      exact reduceCatchUpFold_bound now lrt mc hm rest used
        (fun e he => hr e (List.mem_cons_of_mem _ he))
        (fun v' i' st' hmem => hcnt v' i' st' (List.mem_cons_of_mem _ hmem)) h0 hle
    | reduce v i =>
      cases hc : catchUpTime now st.lastApplied i with
      | none =>
        simp only [reduceCatchUpFold, hc]
        exact reduceCatchUpFold_bound now lrt mc hm rest used
          (fun e he => hr e (List.mem_cons_of_mem _ he))
          (fun v' i' st' hmem => hcnt v' i' st' (List.mem_cons_of_mem _ hmem)) h0 hle
      | some c =>
        simp only [reduceCatchUpFold, hc]
        have hv : 0 ≤ v := hr (ReleaseRule.reduce v i, st) (List.mem_cons_self _ _)
        have htnn : 0 ≤ Int.fdiv ((c : ℤ) - ((lrt.getD st.lastApplied : ℕ) : ℤ)) (i : ℤ) := by
          apply Int.fdiv_nonneg
          · cases lrt with
            | none =>
              have hge := (catchUpTime_ge hc).1
              simp only [Option.getD_none]
              omega
            | some x =>
              have hxc := hcnt v i st (List.mem_cons_self _ _) c hc x rfl
              simp only [Option.getD_some]
              omega
          · exact Int.ofNat_nonneg i
        by_cases hpos : 0 < used
        · have hb : 0 ≤ applyRuleToUsed (.reduce v i)
              (Int.fdiv ((c : ℤ) - ((lrt.getD st.lastApplied : ℕ) : ℤ)) (i : ℤ)) used ∧
              ∀ m, mc = some m → applyRuleToUsed (.reduce v i)
                (Int.fdiv ((c : ℤ) - ((lrt.getD st.lastApplied : ℕ) : ℤ)) (i : ℤ)) used ≤ m := by
            simp only [applyRuleToUsed]
            refine ⟨le_max_left _ _, fun m hmeq => ?_⟩
            have hvt : 0 ≤ v *
                ((Int.fdiv ((c : ℤ) - ((lrt.getD st.lastApplied : ℕ) : ℤ)) (i : ℤ) : ℤ) : ℚ) :=
              mul_nonneg hv (by exact_mod_cast htnn)
            have hum := hle m hmeq
            exact max_le (hm m hmeq) (by linarith)
          simp only [hpos, if_true]
          exact reduceCatchUpFold_bound now lrt mc hm rest _
            (fun e he => hr e (List.mem_cons_of_mem _ he))
            (fun v' i' st' hmem => hcnt v' i' st' (List.mem_cons_of_mem _ hmem)) hb.1 hb.2
        · simp only [hpos, if_false]
          exact reduceCatchUpFold_bound now lrt mc hm rest used
            (fun e he => hr e (List.mem_cons_of_mem _ he))
            (fun v' i' st' hmem => hcnt v' i' st' (List.mem_cons_of_mem _ hmem)) h0 hle

/-- Under well-formed rules and the catch-up safety condition, the catch-up
routine keeps the used capacity within `[0, maxCapacity]` and only advances
the statuses of the configured rules. -/
theorem applyMissedRules_bound (now : ℕ) (entries : List (ReleaseRule × RuleStatus))
    (used : ℚ) (mc : Option ℚ)
    (hrules : ∀ e ∈ entries, RuleOK mc e.1)
    (hm : ∀ m, mc = some m → 0 ≤ m)
    (hcnt : reduceCountsNonneg now entries)
    (h0 : 0 ≤ used) (hle : ∀ m, mc = some m → used ≤ m) :
    (∀ e ∈ (applyMissedRules now entries used).1, ∃ e₀ ∈ entries, e.1 = e₀.1) ∧
    0 ≤ (applyMissedRules now entries used).2 ∧
    ∀ m, mc = some m → (applyMissedRules now entries used).2 ≤ m := by
  rcases hacc : (dueResetCatchUps now entries).foldl takeLater (none, none) with ⟨lrtF, lrrF⟩
  have hmain : applyMissedRules now entries used =
      (entries.map (advanceDue now),
       reduceCatchUpFold now lrtF entries (resetWinnerApply lrrF used)) := by
    unfold applyMissedRules
    rw [missedResetPass_eq, hacc]
    cases lrrF <;>
      simp only [missedReducePass_eq, map_resetPass_reducePass,
        reduceCatchUpFold_map_resetPassAdvance, resetWinnerApply]
  have hused1 : 0 ≤ resetWinnerApply lrrF used ∧
      ∀ m, mc = some m → resetWinnerApply lrrF used ≤ m := by
    cases lrrF with
    | none => exact ⟨h0, hle⟩
    | some r =>
      have hsnd : ((dueResetCatchUps now entries).foldl takeLater (none, none)).2 = some r := by
        rw [hacc]
      rcases foldl_takeLater_snd_mem (dueResetCatchUps now entries) (none, none) r hsnd with
        h2 | ⟨c, hcmem⟩
      · exact absurd h2 (by simp)
      · obtain ⟨e₀, he₀, hfst⟩ := dueResetCatchUps_mem_fst hcmem
        have hr : RuleOK mc r := hfst ▸ hrules e₀ he₀
        exact applyRuleToUsed_once_bound r used mc hr hm h0 hle
  have hcnt' : ∀ v i st, (ReleaseRule.reduce v i, st) ∈ entries →
      ∀ c, catchUpTime now st.lastApplied i = some c → ∀ x, lrtF = some x → x ≤ c := by
    intro v i st hmem c hc x hx
    refine hcnt x ?_ v i st hmem c hc
    rw [hacc]
    exact hx
  obtain ⟨hb0, hble⟩ := reduceCatchUpFold_bound now lrtF mc hm entries
    (resetWinnerApply lrrF used) hrules hcnt' hused1.1 hused1.2
  refine ⟨?_, ?_, ?_⟩
  · rw [hmain]
    intro e he
    simp only [List.mem_map] at he
    obtain ⟨e₀, he₀, rfl⟩ := he
    exact ⟨e₀, he₀, advanceDue_fst now e₀⟩
  · rw [hmain]
    exact hb0
  · rw [hmain]
    exact hble

/-- The invariant only reads nine components of the state, so it transfers
along any state change that keeps them. -/
theorem InvC3_congr {s s' : LimiterState} (hs : InvC3 s)
    (h1 : s'.usedCapacity = s.usedCapacity) (h2 : s'.usedConcurrent = s.usedConcurrent)
    (h3 : s'.options = s.options) (h4 : s'.releaseTimers = s.releaseTimers)
    (h5 : s'.queue = s.queue) (h6 : s'.tasksByTimeLimit = s.tasksByTimeLimit)
    (h7 : s'.executingTasks = s.executingTasks) (h8 : s'.retryTimers = s.retryTimers) :
    InvC3 s' := by
  obtain ⟨a1, a2, a3, a4, a5, a6, a7, a8, a9⟩ := hs
  refine ⟨?_, ?_, ?_, ?_, ?_, ?_, ?_, ?_, ?_⟩
  · rw [h1]; exact a1
  · rw [h3]; exact a2
  · rw [h1, h3]; exact a3
  · rw [h2, h3]; exact a4
  · rw [h4, h3]; exact a5
  · rw [h5]; exact a6
  · rw [h6]; exact a7
  · rw [h7]; exact a8
  · rw [h8]; exact a9

/-- Settling a channel changes only the channel ledger. -/
theorem settleChannel_inv {s : LimiterState} (tid : ℕ) (out : ChannelOutcome)
    (hs : InvC3 s) : InvC3 (settleChannel s tid out) := by
  unfold settleChannel
  split
  · exact hs
  · exact InvC3_congr hs rfl rfl rfl rfl rfl rfl rfl rfl

/-- Folded channel settlements change only the channel ledger. -/
theorem foldl_settleChannel_inv {α : Type} (f : α → ℕ) (g : α → ChannelOutcome) :
    ∀ (l : List α) (s : LimiterState), InvC3 s →
      InvC3 (l.foldl (fun acc x => settleChannel acc (f x) (g x)) s)
  | [], _, hs => hs
  | _ :: rest, s, hs => foldl_settleChannel_inv f g rest _ (settleChannel_inv _ _ hs)

/-- Membership is preserved by `DoubleLinkedList.delete`. -/
theorem mem_deleteTask {l : List Task} {t x : Task} (h : x ∈ deleteTask l t) : x ∈ l :=
  (List.eraseP_sublist l).subset h

/-- Removing a task from the pending indices preserves the invariant. -/
theorem removeTaskFromQueues_inv {s : LimiterState} (t : Task) (hs : InvC3 s) :
    InvC3 (removeTaskFromQueues s t) := by
  obtain ⟨a1, a2, a3, a4, a5, a6, a7, a8, a9⟩ := hs
  exact ⟨a1, a2, a3, a4, a5, fun x hx => a6 x (mem_deleteTask hx),
    fun x hx => a7 x (mem_deleteTask hx), a8, a9⟩

/-- Removing an executing task preserves the invariant. -/
theorem removeExecuting_inv {s : LimiterState} (tid : ℕ) (hs : InvC3 s) :
    InvC3 (removeExecuting s tid) := by
  obtain ⟨a1, a2, a3, a4, a5, a6, a7, a8, a9⟩ := hs
  exact ⟨a1, a2, a3, a4, a5, a6, a7,
    fun x hx => a8 x ((List.eraseP_sublist _).subset hx), a9⟩

/-- Disabling the release-rule timers preserves the invariant. -/
theorem disableTimersM_inv {s : LimiterState} (hs : InvC3 s) :
    InvC3 (disableTimersM s) := by
  unfold disableTimersM
  split
  · exact hs
  · obtain ⟨a1, a2, a3, a4, a5, a6, a7, a8, a9⟩ := hs
    refine ⟨a1, a2, a3, a4, ?_, a6, a7, a8, a9⟩
    intro e he
    simp only [List.mem_map] at he
    obtain ⟨e₀, he₀, rfl⟩ := he
    exact a5 e₀ he₀

/-- Enabling the release-rule timers (which runs the catch-up routine)
preserves the invariant under the catch-up safety condition. -/
theorem enableTimersM_inv {s : LimiterState} {now : ℕ} (hs : InvC3 s)
    (hcnt : reduceCountsNonneg now s.releaseTimers) : InvC3 (enableTimersM s now) := by
  obtain ⟨hfst, hb0, hble⟩ := applyMissedRules_bound now s.releaseTimers s.usedCapacity
    s.options.maxCapacity hs.rules_ok hs.max_nonneg hcnt hs.used_nonneg hs.used_le
  unfold enableTimersM
  split
  · exact hs
  · show InvC3 { s with
      releaseRuleTimersEnabled := true,
      releaseTimers := (applyMissedRules now s.releaseTimers s.usedCapacity).1.map
        (fun e => (e.1, { e.2 with hasTimer := true })),
      usedCapacity := (applyMissedRules now s.releaseTimers s.usedCapacity).2 }
    obtain ⟨a1, a2, a3, a4, a5, a6, a7, a8, a9⟩ := hs
    refine ⟨hb0, a2, hble, a4, ?_, a6, a7, a8, a9⟩
    intro e he
    simp only [List.mem_map] at he
    obtain ⟨e₁, he₁, rfl⟩ := he
    obtain ⟨e₀, he₀, hfe⟩ := hfst e₁ he₁
    have := a5 e₀ he₀
    simpa [hfe] using this

/-- The dispatch-time task mutations keep the capacity fields, and record the
task's own capacity as reserved. -/
theorem reservedTask_capOK (s : LimiterState) (t : Task) (ht : TaskCapOK t) :
    TaskCapOK (reservedTask s t) ∧ (reservedTask s t).capacity = t.capacity := by
  obtain ⟨h1, h2⟩ := ht
  cases hmc : s.options.maxCapacity with
  | none =>
    by_cases hq : t.hasQueueWaitingTimer <;>
      simp [reservedTask, hmc, hq, TaskCapOK, h1, h2]
  | some m =>
    by_cases hstrat : s.options.capacityStrategy = CapacityStrategy.reserve <;>
      by_cases hq : t.hasQueueWaitingTimer <;>
        simp [reservedTask, hmc, hstrat, hq, TaskCapOK, h1, h2]

/-- Arming the execution timer keeps the capacity fields. -/
theorem armExecutionTimer_capOK (o : SchedOptions) (t : Task) (now : ℕ)
    (ht : TaskCapOK t) : TaskCapOK (armExecutionTimer o t now) := by
  unfold armExecutionTimer
  dsimp only
  split
  · exact ht
  · exact ht

/-- A selected task fits the current capacity and is a pending task. -/
theorem selectTaskToExecute_spec (s : LimiterState) (now : ℕ) (t : Task)
    (h : selectTaskToExecute s now = some t) :
    canFitTask s t = true ∧ (t ∈ s.tasksByTimeLimit ∨ t ∈ s.queue) := by
  unfold selectTaskToExecute at h
  have hqueue : (DoubleLinkedList.pickFirstMatching (canFitTask s) s.queue).1 = some t →
      canFitTask s t = true ∧ (t ∈ s.tasksByTimeLimit ∨ t ∈ s.queue) := by
    intro hq
    rw [DoubleLinkedList.pickFirstMatching_fst] at hq
    exact ⟨List.find?_some hq, Or.inr (List.mem_of_find?_eq_some hq)⟩
  split at h
  · rename_i important hh
    split at h
    · rename_i tl htl
      split at h
      · rename_i hnow
        split at h
        · rename_i hfit
          injection h with h
          subst h
          refine ⟨hfit, Or.inl (List.mem_of_mem_head? ?_)⟩
          rw [hh]
          rfl
        · exact absurd h (by simp)
      · exact hqueue h
    · exact hqueue h
  · exact hqueue h

/-- Dispatching a fitting task below the concurrency gate preserves the
invariant. -/
theorem dispatchTask_inv {s : LimiterState} {t : Task} {now : ℕ} (hs : InvC3 s)
    (hfit : canFitTask s t = true) (hsat : maxConcurrentSaturated s = false)
    (ht : TaskCapOK t) : InvC3 (dispatchTask s t now) := by
  obtain ⟨hrok, hrcap⟩ := reservedTask_capOK s t ht
  obtain ⟨a1, a2, a3, a4, a5, a6, a7, a8, a9⟩ := hs
  have hconc : ∀ k, s.options.maxConcurrent = some k → 0 < k → s.usedConcurrent + 1 ≤ k := by
    intro k hk hkpos
    simp only [maxConcurrentSaturated, hk, Bool.and_eq_false_iff, bne_eq_false_iff_eq,
      decide_eq_false_iff_not, not_le] at hsat
    rcases hsat with hsat | hsat
    · omega
    · omega
  have htl' : ∀ x, (x ∈ if natTruthy (reservedTask s t).timeLimit then
      deleteTask s.tasksByTimeLimit (reservedTask s t) else s.tasksByTimeLimit) →
      TaskCapOK x := by
    intro x hx
    by_cases hnt : natTruthy (reservedTask s t).timeLimit = true
    · rw [if_pos hnt] at hx
      exact a7 x (mem_deleteTask hx)
    · rw [if_neg hnt] at hx
      exact a7 x hx
  have hexec : ∀ x, (x ∈ s.executingTasks ++ [armExecutionTimer s.options (reservedTask s t) now]) →
      TaskCapOK x := by
    intro x hx
    rcases List.mem_append.mp hx with hx | hx
    · exact a8 x hx
    · simp only [List.mem_singleton] at hx
      subst hx
      exact armExecutionTimer_capOK _ _ _ hrok
  cases hmc : s.options.maxCapacity with
  | none =>
    simp only [dispatchTask, executeTask, hmc]
    refine ⟨a1, a2, a3, ?_, a5, fun x hx => a6 x (mem_deleteTask hx), htl', hexec, a9⟩
    intro k hk hkpos
    exact hconc k hk hkpos
  | some m =>
    have hfit' : s.usedCapacity + t.capacity ≤ m := by
      simpa [canFitTask, hmc] using hfit
    simp only [dispatchTask, executeTask, hmc]
    refine ⟨?_, a2, ?_, ?_, a5, fun x hx => a6 x (mem_deleteTask hx), htl', hexec, a9⟩
    · show (0 : ℚ) ≤ s.usedCapacity + (reservedTask s t).capacity
      rw [hrcap]
      have hc0 : 0 ≤ t.capacity := ht.1
      linarith
    · intro m' hm'
      have hm'' : s.options.maxCapacity = some m' := hm'
      rw [hmc] at hm''
      injection hm'' with hm''
      show s.usedCapacity + (reservedTask s t).capacity ≤ m'
      rw [hrcap, ← hm'']
      exact hfit'
    · intro k hk hkpos
      exact hconc k hk hkpos

/-- The scheduler loop preserves the invariant at every fuel. -/
theorem startNextGo_inv (now : ℕ) :
    ∀ (fuel : ℕ) (s : LimiterState), InvC3 s → InvC3 (startNextGo now fuel s)
  | 0, _, hs => hs
  | fuel + 1, s, hs => by
    rw [startNextGo]
    split
    · split
      · split
        · exact InvC3_congr hs rfl rfl rfl rfl rfl rfl rfl rfl
        · exact hs
      · exact hs
    · by_cases hsat : maxConcurrentSaturated s = true
      · rw [if_pos hsat]
        exact hs
      · rw [if_neg hsat]
        have hsat' : maxConcurrentSaturated s = false := by
          simpa using hsat
        split
        · exact hs
        · rename_i t heq
          obtain ⟨hfit, hmem⟩ := selectTaskToExecute_spec s now t heq
          have ht : TaskCapOK t := hmem.elim (hs.tl_ok t) (hs.queue_ok t)
          have h1 : InvC3 (dispatchTask s t now) := dispatchTask_inv hs hfit hsat' ht
          by_cases hq : ((dispatchTask s t now).queue.length == 0) = true
          · simp only [hq, ite_true]
            exact disableTimersM_inv h1
          · simp only [hq, Bool.false_eq_true, if_false, ite_false]
            exact startNextGo_inv now fuel _ h1

/-- The scheduler loop entry point preserves the invariant. -/
theorem startNextTaskIfPossible_inv {s : LimiterState} (now : ℕ) (hs : InvC3 s) :
    InvC3 (startNextTaskIfPossible s now) :=
  startNextGo_inv now (s.queue.length + 1) s hs

/-- Resource release: the projections the invariant proof needs. -/
theorem releaseTaskResources_proj (s : LimiterState) (t : Task) :
    ((releaseTaskResources s t).1.usedCapacity = s.usedCapacity ∨
     (releaseTaskResources s t).1.usedCapacity = max 0 (s.usedCapacity - t.reservedCapacity)) ∧
    (releaseTaskResources s t).1.usedConcurrent ≤ s.usedConcurrent ∧
    (releaseTaskResources s t).1.queue = s.queue ∧
    (releaseTaskResources s t).1.tasksByTimeLimit = s.tasksByTimeLimit ∧
    (releaseTaskResources s t).1.executingTasks = s.executingTasks ∧
    (releaseTaskResources s t).1.releaseTimers = s.releaseTimers ∧
    ((releaseTaskResources s t).2.reservedCapacity = t.reservedCapacity ∨
     (releaseTaskResources s t).2.reservedCapacity = 0) := by
  unfold releaseTaskResources
  by_cases h1 : t.reservedConcurrent = 0 <;> by_cases h2 : t.reservedCapacity = 0 <;>
    by_cases h3 : t.hasExecutionTimer <;>
      simp [h1, h2, h3, Nat.sub_le] <;> split <;> simp [Nat.sub_le]

/-- Releasing a task's resources preserves the invariant, and the released
task keeps nonnegative capacity fields. -/
theorem releaseTaskResources_inv {s : LimiterState} {t : Task} (hs : InvC3 s)
    (ht : TaskCapOK t) :
    InvC3 (releaseTaskResources s t).1 ∧ TaskCapOK (releaseTaskResources s t).2 := by
  obtain ⟨hu, hc, hq, htl, hex, hrt, hres⟩ := releaseTaskResources_proj s t
  obtain ⟨-, hrt2, hopt, -, -, -, -, hcap⟩ := releaseTaskResources_frame s t
  obtain ⟨a1, a2, a3, a4, a5, a6, a7, a8, a9⟩ := hs
  constructor
  · refine ⟨?_, ?_, ?_, ?_, ?_, ?_, ?_, ?_, ?_⟩
    · rcases hu with h | h <;> rw [h]
      · exact a1
      · exact le_max_left _ _
    · rw [hopt]
      exact a2
    · intro m hm
      rw [hopt] at hm
      rcases hu with h | h <;> rw [h]
      · exact a3 m hm
      · refine max_le (a2 m hm) ?_
        exact le_trans (sub_le_self _ ht.2) (a3 m hm)
    · intro k hk hkpos
      rw [hopt] at hk
      exact le_trans hc (a4 k hk hkpos)
    · rw [hrt, hopt]
      exact a5
    · rw [hq]
      exact a6
    · rw [htl]
      exact a7
    · rw [hex]
      exact a8
    · rw [hrt2]
      exact a9
  · refine ⟨?_, ?_⟩
    · rw [hcap]
      exact ht.1
    · rcases hres with h | h
      · rw [h]
        exact ht.2
      · rw [h]

/-- Arming a retry timer preserves the invariant. -/
theorem setRetryTimer_inv {s : LimiterState} {t : Task} {timeout now : ℕ} (hs : InvC3 s)
    (ht : TaskCapOK t) : InvC3 (setRetryTimer s t timeout now) := by
  obtain ⟨a1, a2, a3, a4, a5, a6, a7, a8, a9⟩ := hs
  refine ⟨a1, a2, a3, a4, a5, a6, a7, a8, ?_⟩
  intro p hp
  have hp' : p ∈ s.retryTimers ++
      [({ t with timeLimit := some (now + timeout) }, now + timeout)] := hp
  rcases List.mem_append.mp hp' with h | h
  · exact a9 p h
  · simp only [List.mem_singleton] at h
    subst h
    exact ht

/-- The retry strategy (settle or arm a retry timer) preserves the
invariant. -/
theorem useStrategyRetry_inv {s : LimiterState} {t : Task} {o : RetryOptions}
    {err : TaskError} {now : ℕ} (hs : InvC3 s) (ht : TaskCapOK t) :
    InvC3 (useStrategyRetry s t o err now) := by
  unfold useStrategyRetry
  split
  · exact settleChannel_inv _ _ hs
  · exact setRetryTimer_inv hs ht

/-- Failure handling (`tryRejectTask`) preserves the invariant. -/
theorem tryRejectTask_inv {s : LimiterState} {t : Task} {err : TaskError} {now : ℕ}
    (hs : InvC3 s) (ht : TaskCapOK t) : InvC3 (tryRejectTask s t err now) := by
  obtain ⟨hp1, hp2⟩ := releaseTaskResources_inv hs ht
  have hmain : InvC3 (match (releaseTaskResources s t).2.params.failRecoveryStrategy.or
      (releaseTaskResources s t).1.options.failRecoveryStrategy with
    | some .strategyNone => settleChannel (releaseTaskResources s t).1
        (releaseTaskResources s t).2.id (.failure err)
    | some .strategyRetry => useStrategyRetry (releaseTaskResources s t).1
        { (releaseTaskResources s t).2 with
            retryAttempt := (releaseTaskResources s t).2.retryAttempt + 1 } {} err now
    | some (.strategyRetryWith o) => useStrategyRetry (releaseTaskResources s t).1
        { (releaseTaskResources s t).2 with
            retryAttempt := (releaseTaskResources s t).2.retryAttempt + 1 } o err now
    | some (.strategyCustom h) => { (releaseTaskResources s t).1 with pendingHooks :=
        (releaseTaskResources s t).1.pendingHooks ++
          [({ (releaseTaskResources s t).2 with
              retryAttempt := (releaseTaskResources s t).2.retryAttempt + 1 }, err)] }
    | none => settleChannel (releaseTaskResources s t).1
        (releaseTaskResources s t).2.id (.failure err)) := by
    cases hstrat : (releaseTaskResources s t).2.params.failRecoveryStrategy.or
        (releaseTaskResources s t).1.options.failRecoveryStrategy with
    | none => exact settleChannel_inv _ _ hp1
    | some strat =>
      cases strat with
      | strategyNone => exact settleChannel_inv _ _ hp1
      | strategyRetry => exact useStrategyRetry_inv hp1 hp2
      | strategyRetryWith o => exact useStrategyRetry_inv hp1 hp2
      | strategyCustom h => exact InvC3_congr hp1 rfl rfl rfl rfl rfl rfl rfl rfl
  exact startNextTaskIfPossible_inv now hmain

/-- Completion handling (`resolveTask`) preserves the invariant. -/
theorem resolveTask_inv {s : LimiterState} {t : Task} {now : ℕ} (hs : InvC3 s)
    (ht : TaskCapOK t) : InvC3 (resolveTask s t now) := by
  obtain ⟨hp1, -⟩ := releaseTaskResources_inv hs ht
  exact startNextTaskIfPossible_inv now (settleChannel_inv _ _ hp1)

/-- Settling a channel keeps the installed rules. -/
theorem settleChannel_releaseTimers (s : LimiterState) (tid : ℕ) (out : ChannelOutcome) :
    (settleChannel s tid out).releaseTimers = s.releaseTimers := by
  unfold settleChannel
  split <;> rfl

/-- Members of a `putAfter` insertion are the inserted element or old
members. -/
theorem mem_putAfter {α : Type*} {cond : α → Bool} {x y : α} {l : List α}
    (h : y ∈ DoubleLinkedList.putAfter cond x l) : y = x ∨ y ∈ l := by
  obtain ⟨l1, l2, heq, hsplit, -⟩ := DoubleLinkedList.putAfter_split cond x l
  rw [heq] at h
  rcases List.mem_append.mp h with h | h
  · right
    rw [hsplit]
    exact List.mem_append.mpr (Or.inl h)
  · rcases List.mem_cons.mp h with h | h
    · exact Or.inl h
    · right
      rw [hsplit]
      exact List.mem_append.mpr (Or.inr h)

/-- Members of a `putBefore` insertion are the inserted element or old
members. -/
theorem mem_putBefore {α : Type*} {cond : α → Bool} {x y : α} {l : List α}
    (h : y ∈ DoubleLinkedList.putBefore cond x l) : y = x ∨ y ∈ l := by
  obtain ⟨l1, l2, heq, hsplit, -⟩ := DoubleLinkedList.putBefore_split cond x l
  rw [heq] at h
  rcases List.mem_append.mp h with h | h
  · right
    rw [hsplit]
    exact List.mem_append.mpr (Or.inl h)
  · rcases List.mem_cons.mp h with h | h
    · exact Or.inl h
    · right
      rw [hsplit]
      exact List.mem_append.mpr (Or.inr h)

/-- Queue-overflow handling preserves the invariant and the installed
rules. -/
theorem handleQueueOverflow_inv {s : LimiterState} {t : Task} (hs : InvC3 s) :
    InvC3 (handleQueueOverflow s t).1 ∧
    (handleQueueOverflow s t).1.releaseTimers = s.releaseTimers := by
  unfold handleQueueOverflow
  split
  · split
    · constructor
      · exact settleChannel_inv _ _ hs
      · dsimp only
        rw [settleChannel_releaseTimers]
    · split
      · split
        · constructor
          · exact settleChannel_inv _ _ (removeTaskFromQueues_inv _ hs)
          · dsimp only
            rw [settleChannel_releaseTimers]
            rfl
        · constructor
          · exact settleChannel_inv _ _ hs
          · dsimp only
            rw [settleChannel_releaseTimers]
      · constructor
        · exact settleChannel_inv _ _ hs
        · dsimp only
          rw [settleChannel_releaseTimers]
    · split
      · constructor
        · exact settleChannel_inv _ _ (removeTaskFromQueues_inv _
            (InvC3_congr hs rfl rfl rfl rfl rfl rfl rfl rfl))
        · dsimp only
          rw [settleChannel_releaseTimers]
          rfl
      · exact ⟨hs, rfl⟩
  · exact ⟨hs, rfl⟩

/-- Inserting a well-formed task into the pending indices and then
re-entering the loop (the tail of `scheduleTask`) preserves the invariant. -/
theorem scheduleTask_insert_inv (now : ℕ) (s₁ : LimiterState) (t₂ : Task)
    (hs₁ : InvC3 s₁) (hcnt₁ : reduceCountsNonneg now s₁.releaseTimers)
    (ht₂ : TaskCapOK t₂) :
    InvC3 (startNextTaskIfPossible (enableTimersM
      (if natTruthy t₂.timeLimit = true then
        { s₁ with
            queue := DoubleLinkedList.putAfter (fun e => e.priority ≤ t₂.priority) t₂ s₁.queue,
            tasksByTimeAdded := s₁.tasksByTimeAdded ++ [t₂],
            tasksByTimeLimit := DoubleLinkedList.putBefore
              (fun e => decide (t₂.timeLimit.getD 0 < e.timeLimit.getD 0)) t₂
              s₁.tasksByTimeLimit }
      else
        { s₁ with
            queue := DoubleLinkedList.putAfter (fun e => e.priority ≤ t₂.priority) t₂ s₁.queue,
            tasksByTimeAdded := s₁.tasksByTimeAdded ++ [t₂] }) now) now) := by
  obtain ⟨a1, a2, a3, a4, a5, a6, a7, a8, a9⟩ := hs₁
  by_cases hnt : natTruthy t₂.timeLimit = true
  · rw [if_pos hnt]
    apply startNextTaskIfPossible_inv
    apply enableTimersM_inv
    · refine ⟨a1, a2, a3, a4, a5, ?_, ?_, a8, a9⟩
      · intro x hx
        rcases mem_putAfter hx with rfl | hx'
        · exact ht₂
        · exact a6 x hx'
      · intro x hx
        rcases mem_putBefore hx with rfl | hx'
        · exact ht₂
        · exact a7 x hx'
    · exact hcnt₁
  · rw [if_neg hnt]
    apply startNextTaskIfPossible_inv
    apply enableTimersM_inv
    · refine ⟨a1, a2, a3, a4, a5, ?_, a7, a8, a9⟩
      intro x hx
      rcases mem_putAfter hx with rfl | hx'
      · exact ht₂
      · exact a6 x hx'
    · exact hcnt₁

/-- Admission (`scheduleTask`) preserves the invariant whenever it returns
normally. -/
theorem scheduleTask_inv {s : LimiterState} {t : Task} {now : ℕ} {s' : LimiterState}
    (hs : InvC3 s) (hcnt : reduceCountsNonneg now s.releaseTimers)
    (hres : 0 ≤ t.reservedCapacity)
    (h : scheduleTask s t now = .ok s') : InvC3 s' := by
  unfold scheduleTask at h
  split at h
  · injection h with h
    subst h
    exact settleChannel_inv _ _ hs
  · split at h
    · exact absurd h (by simp)
    · rename_i t' hcap
      have hres' : 0 ≤ t'.reservedCapacity := by
        clear h
        split at hcap
        · split at hcap
          · split at hcap
            · exact absurd hcap (by simp)
            · injection hcap with hcap
              rw [← hcap]
              exact hres
          · injection hcap with hcap
            rw [← hcap]
            exact hres
        · injection hcap with hcap
          rw [← hcap]
          exact hres
      split at h
      · exact absurd h (by simp)
      · split at h
        · exact absurd h (by simp)
        · rename_i hc0 hp0
          have hcapok : TaskCapOK t' := ⟨not_lt.mp hc0, hres'⟩
          obtain ⟨hqo, hqot⟩ := @handleQueueOverflow_inv s t' hs
          dsimp only at h
          split at h
          · injection h with h
            subst h
            exact hqo
          · injection h with h
            subst h
            refine scheduleTask_insert_inv now (handleQueueOverflow s t').1 _ hqo ?_ ?_
            · rw [hqot]
              exact hcnt
            · split
              · split
                · exact hcapok
                · exact hcapok
              · split
                · exact hcapok
                · exact hcapok

/-- Rejecting every awaiting retry preserves the invariant. -/
theorem rejectAllRetries_inv {s : LimiterState} (err : TaskError) (hs : InvC3 s) :
    InvC3 (rejectAllRetries s err) := by
  have h1 : InvC3 (s.retryTimers.foldl
      (fun acc (p : Task × ℕ) => settleChannel acc p.1.id (.failure err)) s) :=
    foldl_settleChannel_inv (fun p : Task × ℕ => p.1.id) (fun _ => .failure err)
      s.retryTimers s hs
  obtain ⟨a1, a2, a3, a4, a5, a6, a7, a8, a9⟩ := h1
  refine ⟨a1, a2, a3, a4, a5, a6, a7, a8, ?_⟩
  intro p hp
  exact absurd hp (List.not_mem_nil p)

/-- Stopping the waiting tasks (settle all queued channels, clear the pending
indices) preserves the invariant. -/
theorem stopWaiting_inv {u : LimiterState} (hu : InvC3 u) :
    InvC3 { u.queue.foldl (fun acc (t : Task) => settleChannel acc t.id
        (.failure (.engine .limiterStopped))) u with
      queue := [], tasksByTimeAdded := [], tasksByTimeLimit := [] } := by
  have h1 : InvC3 (u.queue.foldl (fun acc (t : Task) => settleChannel acc t.id
      (.failure (.engine .limiterStopped))) u) :=
    foldl_settleChannel_inv (fun t : Task => t.id)
      (fun _ => .failure (.engine .limiterStopped)) u.queue u hu
  obtain ⟨a1, a2, a3, a4, a5, a6, a7, a8, a9⟩ := h1
  refine ⟨a1, a2, a3, a4, a5, ?_, ?_, a8, a9⟩
  · intro x hx
    exact absurd hx (List.not_mem_nil x)
  · intro x hx
    exact absurd hx (List.not_mem_nil x)

/-- Rejecting the executing tasks (settle their channels, clear the executing
set) preserves the invariant. -/
theorem stopExec_inv {u : LimiterState} (hu : InvC3 u) :
    InvC3 { u.executingTasks.foldl (fun acc (t : Task) => settleChannel acc t.id
        (.failure (.engine .limiterStopped))) u with executingTasks := [] } := by
  have h1 : InvC3 (u.executingTasks.foldl (fun acc (t : Task) => settleChannel acc t.id
      (.failure (.engine .limiterStopped))) u) :=
    foldl_settleChannel_inv (fun t : Task => t.id)
      (fun _ => .failure (.engine .limiterStopped)) u.executingTasks u hu
  obtain ⟨a1, a2, a3, a4, a5, a6, a7, a8, a9⟩ := h1
  refine ⟨a1, a2, a3, a4, a5, a6, a7, ?_, a9⟩
  intro x hx
  exact absurd hx (List.not_mem_nil x)

/-- `stop()` preserves the invariant. -/
theorem stopCall_inv {s : LimiterState} (params? : Option StopParams) (now : ℕ)
    (hs : InvC3 s) : InvC3 (stopCall s params? now) := by
  have htail : ∀ (u : LimiterState) (g : ℕ), InvC3 u →
      InvC3 (if ({ u with stopped := some { gen := g }, nextStopGen := g + 1 } :
          LimiterState).queue.length > 0 then
        startNextTaskIfPossible
          { u with stopped := some { gen := g, hasResolver := true },
                   nextStopGen := g + 1,
                   resolverCreatedLog := u.resolverCreatedLog ++ [g] } now
      else { u with stopped := some { gen := g }, nextStopGen := g + 1 }) := by
    intro u g hu
    by_cases hq : ({ u with stopped := some { gen := g }, nextStopGen := g + 1 } :
        LimiterState).queue.length > 0
    · rw [if_pos hq]
      exact startNextTaskIfPossible_inv now (InvC3_congr hu rfl rfl rfl rfl rfl rfl rfl rfl)
    · rw [if_neg hq]
      exact InvC3_congr hu rfl rfl rfl rfl rfl rfl rfl rfl
  cases params? with
  | none => exact htail s s.nextStopGen hs
  | some p =>
    unfold stopCall
    by_cases hall : p.stopAll = true
    · simp only [hall, if_true, ite_true]
      exact htail _ _ (rejectAllRetries_inv _ (stopExec_inv (stopWaiting_inv hs)))
    · simp only [hall, if_false, ite_false, Bool.false_eq_true]
      by_cases hsw : p.stopWaitingTasks = true
      · by_cases hre : p.rejectExecutingTasks = true
        · by_cases hrt : p.stopTaskRetries = true
          · simp only [hsw, hre, hrt, if_true, ite_true, Bool.true_or]
            exact htail _ _ (rejectAllRetries_inv _ (stopExec_inv (stopWaiting_inv hs)))
          · simp only [hsw, hre, hrt, if_true, if_false, ite_true, ite_false,
              Bool.true_or, Bool.false_eq_true]
            exact htail _ _ (stopExec_inv (stopWaiting_inv hs))
        · by_cases hrt : p.stopTaskRetries = true
          · simp only [hsw, hre, hrt, if_true, if_false, ite_true, ite_false,
              Bool.true_or, Bool.false_eq_true]
            exact htail _ _ (rejectAllRetries_inv _ (stopWaiting_inv hs))
          · simp only [hsw, hre, hrt, if_true, if_false, ite_true, ite_false,
              Bool.true_or, Bool.false_eq_true]
            exact htail _ _ (stopWaiting_inv hs)
      · by_cases hre : p.rejectExecutingTasks = true
        · by_cases hrt : p.stopTaskRetries = true
          · simp only [hsw, hre, hrt, if_true, if_false, ite_true, ite_false,
              Bool.false_or, Bool.or_false, Bool.false_eq_true]
            exact htail _ _ (rejectAllRetries_inv _ (stopExec_inv hs))
          · simp only [hsw, hre, hrt, if_true, if_false, ite_true, ite_false,
              Bool.false_or, Bool.or_false, Bool.false_eq_true]
            exact htail _ _ (stopExec_inv hs)
        · by_cases hrt : p.stopTaskRetries = true
          · simp only [hsw, hre, hrt, if_true, if_false, ite_true, ite_false,
              Bool.false_or, Bool.or_false, Bool.or_self, Bool.false_eq_true]
            exact htail _ _ hs
          · simp only [hsw, hre, hrt, if_true, if_false, ite_true, ite_false,
              Bool.false_or, Bool.or_false, Bool.or_self, Bool.false_eq_true]
            exact htail _ _ hs

/-- A single release-rule timer firing preserves the invariant. -/
theorem applyRuleByIntervalM_inv {s : LimiterState} (idx now : ℕ) (hs : InvC3 s) :
    InvC3 (applyRuleByIntervalM s idx now) := by
  unfold applyRuleByIntervalM
  cases hget : s.releaseTimers.get? idx with
  | none => exact hs
  | some e =>
    obtain ⟨r, st⟩ := e
    have hmem : (r, st) ∈ s.releaseTimers := List.get?_mem hget
    have hrok : RuleOK s.options.maxCapacity r := hs.rules_ok (r, st) hmem
    obtain ⟨hb0, hble⟩ := applyRuleToUsed_once_bound r s.usedCapacity s.options.maxCapacity
      hrok hs.max_nonneg hs.used_nonneg hs.used_le
    dsimp only
    apply startNextTaskIfPossible_inv
    obtain ⟨a1, a2, a3, a4, a5, a6, a7, a8, a9⟩ := hs
    refine ⟨hb0, a2, hble, a4, ?_, a6, a7, a8, a9⟩
    intro e he
    have he' : e ∈ s.releaseTimers.set idx (r, { st with lastApplied := now }) := he
    rcases List.mem_or_eq_of_mem_set he' with h | h
    · exact a5 e h
    · rw [h]
      exact hrok

/-- Every rule installed by `setRules` is one of the newly configured
rules. -/
theorem setRules_mem {now : ℕ} {en : Bool} {old : List (ReleaseRule × RuleStatus)}
    {rules : List ReleaseRule} {e : ReleaseRule × RuleStatus}
    (he : e ∈ setRules now en old rules) : e.1 ∈ rules := by
  unfold setRules at he
  rcases List.mem_append.mp he with h | h
  · have hc := List.of_mem_filter h
    simpa using hc
  · simp only [List.mem_map] at h
    obtain ⟨r, hr, rfl⟩ := h
    exact List.mem_of_mem_filter hr

/-- C3 (amended): the P1 bounds `0 ≤ usedCapacity ≤ maxCapacity` (when
defined) and `usedConcurrent ≤ maxConcurrent` (when defined and nonzero — a
configured 0 is falsy and imposes no limit) hold at every quiescent point of
every admissible run, PROVIDED the configured release rules are well-formed
(`reset` values within `[0, maxCapacity]`, `reduce` values nonnegative — the
code never validates this, see the counterexample), the catch-up routine never
produces a negative reduce firing count, and a reconfiguration never cuts
`maxCapacity` below the current `usedCapacity` nor a nonzero `maxConcurrent`
below the current `usedConcurrent`: construction establishes the invariant
`InvC3` and every admissible step preserves it under the `stepSafe` side
conditions. -/
theorem c3_amended_invariant :
    (∀ (o : Options) (now : ℕ) (s : LimiterState), construct o now = .ok s →
      (∀ r ∈ o.releaseRules.getD [], RuleOK o.maxCapacity r) → InvC3 s) ∧
    (∀ (s : LimiterState) (op : Op) (s' : LimiterState), step s op = some s' →
      InvC3 s → stepSafe s op → InvC3 s') := by
  constructor
  · intro o now s hcons hrules
    unfold construct at hcons
    split at hcons
    · exact absurd hcons (by simp)
    · rename_i hmax
      split at hcons
      · exact absurd hcons (by simp)
      · rename_i hused
        split at hcons
        · exact absurd hcons (by simp)
        · split at hcons
          · exact absurd hcons (by simp)
          · injection hcons with hcons
            subst hcons
            have hm : ∀ m, o.maxCapacity = some m → 0 ≤ m := by
              intro m hm'
              unfold checkMaxCapacity at hmax
              rw [hm'] at hmax
              have hmax2 : (if m < 0 then some ErrorType.invalidArgument
                  else (none : Option ErrorType)) = none := hmax
              by_cases hlt : m < 0
              · rw [if_pos hlt] at hmax2
                exact absurd hmax2 (by simp)
              · exact not_lt.mp hlt
            have huse : 0 ≤ o.initiallyUsedCapacity.getD 0 ∧
                ∀ m, o.maxCapacity = some m → o.initiallyUsedCapacity.getD 0 ≤ m := by
              unfold checkUsedCapacity at hused
              cases hiu : o.initiallyUsedCapacity with
              | none =>
                constructor
                · exact le_refl 0
                · intro m hm'
                  exact hm m hm'
              | some u =>
                rw [hiu] at hused
                cases hmc : o.maxCapacity with
                | none =>
                  rw [hmc] at hused
                  exact absurd hused (by simp)
                | some m =>
                  rw [hmc] at hused
                  have hused2 : (if u < 0 then some ErrorType.invalidArgument
                      else if m < u then some ErrorType.invalidArgument
                      else (none : Option ErrorType)) = none := hused
                  by_cases h1 : u < 0
                  · rw [if_pos h1] at hused2
                    exact absurd hused2 (by simp)
                  · rw [if_neg h1] at hused2
                    by_cases h2 : m < u
                    · rw [if_pos h2] at hused2
                      exact absurd hused2 (by simp)
                    · constructor
                      · exact not_lt.mp h1
                      · intro m' hm'
                        injection hm' with hm'
                        rw [Option.getD_some, ← hm']
                        exact not_lt.mp h2
            refine ⟨huse.1, hm, huse.2, ?_, ?_, ?_, ?_, ?_, ?_⟩
            · intro k hk hkpos
              exact Nat.zero_le k
            · intro e he
              exact hrules e.1 (setRules_mem he)
            · intro x hx
              exact absurd hx (List.not_mem_nil x)
            · intro x hx
              exact absurd hx (List.not_mem_nil x)
            · intro x hx
              exact absurd hx (List.not_mem_nil x)
            · intro p hp
              exact absurd hp (List.not_mem_nil p)
  · intro s op s' hstep hs hsafe
    cases op with
    | opSchedule t now =>
      simp only [step] at hstep
      split at hstep
      · rename_i hfresh
        have hres : 0 ≤ t.reservedCapacity := by
          have h' : freshTask s t now = true := hfresh
          unfold freshTask at h'
          simp only [Bool.and_eq_true, beq_iff_eq] at h'
          rw [h'.1.1.1.1.1.1.1.2]
        split at hstep
        · rename_i s₂ hok
          injection hstep with hstep
          subst hstep
          exact scheduleTask_inv hs hsafe hres hok
        · injection hstep with hstep
          subst hstep
          exact hs
      · exact absurd hstep (by simp)
    | opComplete tid now =>
      simp only [step] at hstep
      split at hstep
      · rename_i t hfind
        injection hstep with hstep
        subst hstep
        have hmem : t ∈ s.executingTasks := List.mem_of_find?_eq_some hfind
        exact resolveTask_inv (removeExecuting_inv tid hs) (hs.exec_ok t hmem)
      · exact absurd hstep (by simp)
    | opFail tid err now =>
      simp only [step] at hstep
      split at hstep
      · rename_i t hfind
        injection hstep with hstep
        subst hstep
        have hmem : t ∈ s.executingTasks := List.mem_of_find?_eq_some hfind
        exact tryRejectTask_inv (removeExecuting_inv tid hs) (hs.exec_ok t hmem)
      · exact absurd hstep (by simp)
    | opExecTimeout tid now =>
      simp only [step] at hstep
      split at hstep
      · rename_i t hfind
        split at hstep
        · injection hstep with hstep
          subst hstep
          have hmem : t ∈ s.executingTasks := List.mem_of_find?_eq_some hfind
          exact tryRejectTask_inv (removeExecuting_inv tid hs) (hs.exec_ok t hmem)
        · exact absurd hstep (by simp)
      · exact absurd hstep (by simp)
    | opQueueTimeout tid now =>
      simp only [step] at hstep
      split at hstep
      · rename_i t hfind
        split at hstep
        · injection hstep with hstep
          subst hstep
          exact settleChannel_inv _ _ (removeTaskFromQueues_inv _ hs)
        · exact absurd hstep (by simp)
      · exact absurd hstep (by simp)
    | opRetryFire tid now =>
      simp only [step] at hstep
      split at hstep
      · rename_i t fire hfind
        split at hstep
        · rename_i hfire
          split at hstep
          · rename_i s₂ hok
            injection hstep with hstep
            subst hstep
            have hmem : (t, fire) ∈ s.retryTimers := List.mem_of_find?_eq_some hfind
            have hs1 : InvC3 { s with
                retryTimers := s.retryTimers.eraseP fun p => p.1.id == tid } := by
              obtain ⟨a1, a2, a3, a4, a5, a6, a7, a8, a9⟩ := hs
              exact ⟨a1, a2, a3, a4, a5, a6, a7, a8,
                fun p hp => a9 p ((List.eraseP_sublist _).subset hp)⟩
            exact scheduleTask_inv hs1 hsafe (hs.retry_ok (t, fire) hmem).2 hok
          · injection hstep with hstep
            subst hstep
            obtain ⟨a1, a2, a3, a4, a5, a6, a7, a8, a9⟩ := hs
            exact ⟨a1, a2, a3, a4, a5, a6, a7, a8,
              fun p hp => a9 p ((List.eraseP_sublist _).subset hp)⟩
        · exact absurd hstep (by simp)
      · exact absurd hstep (by simp)
    | opRuleFire idx now =>
      simp only [step] at hstep
      split at hstep
      · injection hstep with hstep
        subst hstep
        exact applyRuleByIntervalM_inv idx now hs
      · exact absurd hstep (by simp)
    | opGetUsedCapacity now =>
      simp only [step] at hstep
      injection hstep with hstep
      subst hstep
      obtain ⟨hfst, hb0, hble⟩ := applyMissedRules_bound now s.releaseTimers s.usedCapacity
        s.options.maxCapacity hs.rules_ok hs.max_nonneg hsafe hs.used_nonneg hs.used_le
      unfold getUsedCapacityCall
      split
      · show InvC3 { s with
          releaseTimers := (applyMissedRules now s.releaseTimers s.usedCapacity).1,
          usedCapacity := (applyMissedRules now s.releaseTimers s.usedCapacity).2 }
        obtain ⟨a1, a2, a3, a4, a5, a6, a7, a8, a9⟩ := hs
        refine ⟨hb0, a2, hble, a4, ?_, a6, a7, a8, a9⟩
        intro e he
        obtain ⟨e₀, he₀, hfe⟩ := hfst e he
        rw [hfe]
        exact a5 e₀ he₀
      · exact hs
    | opSetUsedCapacity v now =>
      simp only [step] at hstep
      cases hcall : setUsedCapacityCall s v now with
      | error e =>
        rw [hcall] at hstep
        have hstep' : some s = some s' := hstep
        injection hstep' with hstep'
        subst hstep'
        exact hs
      | ok s₂ =>
        rw [hcall] at hstep
        have hstep' : some s₂ = some s' := hstep
        injection hstep' with hstep'
        subst hstep'
        unfold setUsedCapacityCall at hcall
        split at hcall
        · exact absurd hcall (by simp)
        · rename_i hchk
          injection hcall with hcall
          subst hcall
          apply startNextTaskIfPossible_inv
          unfold checkUsedCapacity at hchk
          cases hmc : s.options.maxCapacity with
          | none =>
            rw [hmc] at hchk
            exact absurd hchk (by simp)
          | some m =>
            rw [hmc] at hchk
            have hchk2 : (if v < 0 then some ErrorType.invalidArgument
                else if m < v then some ErrorType.invalidArgument
                else (none : Option ErrorType)) = none := hchk
            by_cases h1 : v < 0
            · rw [if_pos h1] at hchk2
              exact absurd hchk2 (by simp)
            · rw [if_neg h1] at hchk2
              by_cases h2 : m < v
              · rw [if_pos h2] at hchk2
                exact absurd hchk2 (by simp)
              · obtain ⟨a1, a2, a3, a4, a5, a6, a7, a8, a9⟩ := hs
                refine ⟨not_lt.mp h1, a2, ?_, a4, a5, a6, a7, a8, a9⟩
                intro m' hm'
                have hm'' : s.options.maxCapacity = some m' := hm'
                rw [hmc] at hm''
                injection hm'' with hm''
                show v ≤ m'
                rw [← hm'']
                exact not_lt.mp h2
    | opAdjustUsedCapacity d now =>
      simp only [step] at hstep
      cases hcall : adjustUsedCapacityCall s d now with
      | error e =>
        rw [hcall] at hstep
        have hstep' : some s = some s' := hstep
        injection hstep' with hstep'
        subst hstep'
        exact hs
      | ok s₂ =>
        rw [hcall] at hstep
        have hstep' : some s₂ = some s' := hstep
        injection hstep' with hstep'
        subst hstep'
        unfold adjustUsedCapacityCall at hcall
        split at hcall
        · exact absurd hcall (by simp)
        · rename_i m hmc
          injection hcall with hcall
          subst hcall
          apply startNextTaskIfPossible_inv
          obtain ⟨a1, a2, a3, a4, a5, a6, a7, a8, a9⟩ := hs
          have hm0 : 0 ≤ m := a2 m hmc
          refine ⟨?_, a2, ?_, a4, a5, a6, a7, a8, a9⟩
          · show (0 : ℚ) ≤ min (max 0 (s.usedCapacity + d)) m
            exact le_min (le_max_left _ _) hm0
          · intro m' hm'
            have hm'' : s.options.maxCapacity = some m' := hm'
            rw [hmc] at hm''
            injection hm'' with hm''
            show min (max 0 (s.usedCapacity + d)) m ≤ m'
            rw [← hm'']
            exact min_le_right _ _
    | opSetOptions o now =>
      simp only [step] at hstep
      obtain ⟨hm1, hk1, hr1⟩ := hsafe
      cases hcall : setOptionsCall s o now with
      | error e =>
        rw [hcall] at hstep
        have hstep' : some s = some s' := hstep
        injection hstep' with hstep'
        subst hstep'
        exact hs
      | ok s₂ =>
        rw [hcall] at hstep
        have hstep' : some s₂ = some s' := hstep
        injection hstep' with hstep'
        subst hstep'
        unfold setOptionsCall at hcall
        split at hcall
        · exact absurd hcall (by simp)
        · rename_i hcm
          split at hcall
          · exact absurd hcall (by simp)
          · split at hcall
            · exact absurd hcall (by simp)
            · injection hcall with hcall
              subst hcall
              have hm : ∀ m, o.maxCapacity = some m → 0 ≤ m := by
                intro m hm'
                unfold checkMaxCapacity at hcm
                rw [hm'] at hcm
                have hcm2 : (if m < 0 then some ErrorType.invalidArgument
                    else (none : Option ErrorType)) = none := hcm
                by_cases hlt : m < 0
                · rw [if_pos hlt] at hcm2
                  exact absurd hcm2 (by simp)
                · exact not_lt.mp hlt
              obtain ⟨a1, a2, a3, a4, a5, a6, a7, a8, a9⟩ := hs
              refine ⟨a1, hm, hm1, hk1, ?_, a6, a7, a8, a9⟩
              intro e he
              exact hr1 e.1 (setRules_mem he)
    | opStop p now =>
      simp only [step] at hstep
      injection hstep with hstep
      subst hstep
      exact stopCall_inv p now hs

/-- Witness for the amended C3 theorem: constructing with empty options
satisfies the invariant, and a `stop()` step from that state preserves it. -/
theorem c3_amended_invariant_witness :
    (construct {} 0 = .ok { options := mergeDefaults {}, originalOptions := {} } ∧
      InvC3 { options := mergeDefaults {}, originalOptions := {} }) ∧
    (step { options := mergeDefaults {}, originalOptions := {} } (.opStop none 0) =
        some { options := mergeDefaults {}, originalOptions := {},
               stopped := some { gen := 1 }, nextStopGen := 2 } ∧
      InvC3 { options := mergeDefaults {}, originalOptions := {},
              stopped := some { gen := 1 }, nextStopGen := 2 }) := by
  have h0 : construct {} 0 = .ok { options := mergeDefaults {}, originalOptions := {} } := rfl
  have h1 : step { options := mergeDefaults {}, originalOptions := {} } (.opStop none 0) =
      some { options := mergeDefaults {}, originalOptions := {},
             stopped := some { gen := 1 }, nextStopGen := 2 } := rfl
  refine ⟨⟨h0, ?_⟩, h1, ?_⟩
  · exact c3_amended_invariant.1 {} 0 _ h0
      (fun r hr => absurd hr (List.not_mem_nil r))
  · exact c3_amended_invariant.2 _ (.opStop none 0) _ h1
      (c3_amended_invariant.1 {} 0 _ h0 (fun r hr => absurd hr (List.not_mem_nil r)))
      trivial

end CapLim
